import Mathlib

/-!
# Verification of the opendate string-to-date/time interpretation engine

The repository ships two resolvers (a heuristic resolver and a strict
ISO-8601 resolver) as a compiled extension; only their specification and
their Python test-suite are part of the source tree.  This development
models the engine from the specification (tokenizer, shared utilities,
heuristic resolver, strict ISO-8601 resolver) and proves the testable
properties stated there.  Strings are handled as `List Char`; machine
integers do not occur (all arithmetic is `Nat`/`Int`).
-/

namespace Opendate

/-! ## Character and digit utilities -/

/-- Is `c` an ASCII decimal digit? -/
def isDigitC (c : Char) : Bool := 48 ≤ c.toNat && c.toNat ≤ 57

/-- Numeric value of an ASCII digit character. -/
def digitVal (c : Char) : Nat := c.toNat - 48

/-- The ASCII digit character for a value `d < 10`. -/
def digitChar (d : Nat) : Char := Char.ofNat (48 + d)

/-- Is `c` ASCII whitespace (space, tab, newline, carriage return)? -/
def isWs (c : Char) : Bool := c = ' ' || c = '\t' || c = '\n' || c = '\r'

/-- Split a character list into its leading run of decimal digits and the
remainder. -/
def takeDigits : List Char → List Char × List Char
  | [] => ([], [])
  | c :: cs =>
    if isDigitC c then
      let (ds, r) := takeDigits cs
      (c :: ds, r)
    else ([], c :: cs)

/-- The numeric value of a digit run, most significant digit first. -/
def digitsVal (l : List Char) : Nat :=
  l.foldl (fun a c => 10 * a + digitVal c) 0

end Opendate

namespace Opendate

/-! ## Shared utilities (§4.4 of the spec) -/

/-- Modelled from the spec: two-digit-year windowing, shared by both
resolvers (§3, §4.4).  A 2-digit year expands via a sliding window
`[current_year - 50, current_year + 49]` around `current`. -/
def expandTwoDigitYear (current y : Nat) : Nat :=
  let candidate := current - current % 100 + y
  if current + 49 < candidate then candidate - 100
  else if candidate + 50 ≤ current then candidate + 100
  else candidate

/-- Modelled from the spec: fractional-second normalization (§3).  A 1-9
digit fraction is normalized to exactly 6 microsecond digits: shorter
fractions are right-padded with zeros, longer ones truncated (never
rounded). -/
def microsecondOfFraction (ds : List Char) : Nat :=
  let n := digitsVal ds
  if ds.length ≤ 6 then n * 10 ^ (6 - ds.length)
  else n / 10 ^ (ds.length - 6)

/-! ## Gregorian calendar arithmetic

Day numbering with day 0 = 0000-03-01 of the proleptic Gregorian
calendar (the standard era/year-of-era decomposition). -/

/-- Day number of a civil date (valid for `y ≥ 1`). -/
def daysFromCivil (y m d : Nat) : Nat :=
  let y' := if m ≤ 2 then y - 1 else y
  let era := y' / 400
  let yoe := y' % 400
  let mp := (m + 9) % 12
  let doy := (153 * mp + 2) / 5 + d - 1
  let doe := yoe * 365 + yoe / 4 - yoe / 100 + doy
  era * 146097 + doe

/-- Civil date `(year, month, day)` of a day number. -/
def civilFromDays (z : Nat) : Nat × Nat × Nat :=
  let era := z / 146097
  let doe := z % 146097
  let yoe := (doe - doe / 1460 + doe / 36524 - doe / 146096) / 365
  let y := yoe + era * 400
  let doy := doe - (365 * yoe + yoe / 4 - yoe / 100)
  let mp := (5 * doy + 2) / 153
  let d := doy - (153 * mp + 2) / 5 + 1
  let m := if mp < 10 then mp + 3 else mp - 9
  (if m ≤ 2 then y + 1 else y, m, d)

/-- Weekday of a day number, Monday = 0 .. Sunday = 6
(day 0 = 0000-03-01 is a Wednesday). -/
def weekdayOf (z : Nat) : Nat := (z + 2) % 7

/-! ## ISO week dates (§4.3)

Modelled from the spec: week 1 contains the year's first Thursday. -/

/-- Day number of the first Thursday of January of year `y`. -/
def firstThursday (y : Nat) : Nat :=
  let jan1 := daysFromCivil y 1 1
  jan1 + (3 + 7 - weekdayOf jan1) % 7

/-- Day number of the Monday starting ISO week 1 of year `y`: the Monday
of the week containing the year's first Thursday. -/
def weekOneMonday (y : Nat) : Nat := firstThursday y - 3

/-- Modelled from the spec: convert an ISO week date (ISO year, week
1-53, weekday 1-7 with Monday = 1) to a civil `(year, month, day)`. -/
def isoWeekToCivil (y w d : Nat) : Nat × Nat × Nat :=
  civilFromDays (weekOneMonday y + 7 * (w - 1) + (d - 1))

end Opendate

namespace Opendate

/-! ## Data model (§3, §7) -/

/-- Modelled from the spec: the error taxonomy of §7. -/
inductive ParseError where
  | noComponentsFound
  | ambiguousOrInvalidNumeric
  | unrecognizedToken
  | malformedIsoGrammar
  | invalidWeekDate
  deriving DecidableEq, Repr

/-- Modelled from the spec: the Parse Result of §3, sole output of both
resolvers.  Every field is independently optional; the excluded
Date/DateTime layer fills unset fields. -/
structure ParseResult where
  year : Option Nat := none
  month : Option Nat := none
  day : Option Nat := none
  hour : Option Nat := none
  minute : Option Nat := none
  second : Option Nat := none
  microsecond : Option Nat := none
  weekday : Option Nat := none
  tzoffset : Option Int := none
  tzname : Option String := none
  deriving DecidableEq, Repr

/-- Modelled from the spec: the immutable Resolver Configuration of §3.
The sliding two-digit-year window needs the current year, which the
engine reads from the clock; here it is part of the configuration. -/
structure Config where
  dayfirst : Bool := false
  yearfirst : Bool := false
  fuzzy : Bool := false
  currentYear : Nat := 2025
  deriving DecidableEq, Repr

/-! ## Strict ISO-8601 resolver (§4.3)

Modelled from the spec: grammar-driven parsing of calendar, week and
ordinal dates, times with 1-9 digit fractions, and timezone designators;
trailing whitespace tolerated, anything else trailing is an error. -/

/-- Signed seconds of an `HH`/`MM` offset pair. -/
def signedOffset (neg : Bool) (h m : Nat) : Int :=
  if neg then -Int.ofNat (h * 3600 + m * 60) else Int.ofNat (h * 3600 + m * 60)

/-- Signed-offset tail `HH:MM`, `HHMM` or `HH` after an explicit sign;
returns the offset in signed seconds and the remaining input (§4.4).
The minutes field of an ISO offset holds minutes, so a value above 59
is an out-of-range field (§7, `AmbiguousOrInvalidNumeric`). -/
def parseOffsetTail (neg : Bool) (cs : List Char) :
    Except ParseError (Int × List Char) :=
  let signed := signedOffset neg
  if (takeDigits cs).1.length = 2 then
    match (takeDigits cs).2 with
    | c :: r2 =>
      if c = ':' then
        if (takeDigits r2).1.length = 2 then
          if digitsVal (takeDigits r2).1 ≤ 59 then
            .ok (signed (digitsVal (takeDigits cs).1)
                  (digitsVal (takeDigits r2).1), (takeDigits r2).2)
          else .error .ambiguousOrInvalidNumeric
        else .error .malformedIsoGrammar
      else .ok (signed (digitsVal (takeDigits cs).1) 0, c :: r2)
    | [] => .ok (signed (digitsVal (takeDigits cs).1) 0, [])
  else if (takeDigits cs).1.length = 4 then
    if digitsVal (takeDigits cs).1 % 100 ≤ 59 then
      .ok (signed (digitsVal (takeDigits cs).1 / 100)
            (digitsVal (takeDigits cs).1 % 100), (takeDigits cs).2)
    else .error .ambiguousOrInvalidNumeric
  else .error .malformedIsoGrammar

/-- Optional timezone designator: `Z` (offset 0, name "UTC"), `±HH:MM`,
`±HHMM` or `±HH`; returns tzoffset, tzname and the remaining input. -/
def parseIsoTz (cs : List Char) :
    Except ParseError (Option Int × Option String × List Char) :=
  match cs with
  | [] => .ok (none, none, [])
  | c :: r =>
    if c = 'Z' then .ok (some 0, some "UTC", r)
    else if c = '+' then
      match parseOffsetTail false r with
      | .ok (off, r') => .ok (some off, none, r')
      | .error e => .error e
    else if c = '-' then
      match parseOffsetTail true r with
      | .ok (off, r') => .ok (some off, none, r')
      | .error e => .error e
    else .ok (none, none, c :: r)

/-- Validate and finish an ISO week date (§4.3): week 1-53, weekday 1-7. -/
def finishWeekDate (y w d : Nat) (rest : List Char) :
    Except ParseError ((Nat × Nat × Nat) × List Char) :=
  if 1 ≤ w ∧ w ≤ 53 ∧ 1 ≤ d ∧ d ≤ 7 then
    .ok (isoWeekToCivil y w d, rest)
  else .error .invalidWeekDate

/-- Tail of a week date after the literal `W`: `ww`, `ww-D` or `wwD`;
a missing weekday means Monday (weekday 1). -/
def parseWeekTail (y : Nat) (cs : List Char) :
    Except ParseError ((Nat × Nat × Nat) × List Char) :=
  if (takeDigits cs).1.length = 2 then
    match (takeDigits cs).2 with
    | c :: r2 =>
      if c = '-' then
        if (takeDigits r2).1.length = 1 then
          finishWeekDate y (digitsVal (takeDigits cs).1)
            (digitsVal (takeDigits r2).1) (takeDigits r2).2
        else .error .malformedIsoGrammar
      else finishWeekDate y (digitsVal (takeDigits cs).1) 1 (c :: r2)
    | [] => finishWeekDate y (digitsVal (takeDigits cs).1) 1 []
  else if (takeDigits cs).1.length = 3 then
    finishWeekDate y (digitsVal (takeDigits cs).1 / 10)
      (digitsVal (takeDigits cs).1 % 10) (takeDigits cs).2
  else .error .malformedIsoGrammar

/-- Validate and finish an ordinal date `YYYY-DDD`/`YYYYDDD` (§4.3):
day-of-year 1-366, converted through the civil day number. -/
def finishOrdinalDate (y doy : Nat) (rest : List Char) :
    Except ParseError ((Nat × Nat × Nat) × List Char) :=
  if 1 ≤ doy ∧ doy ≤ 366 then
    .ok (civilFromDays (daysFromCivil y 1 1 + doy - 1), rest)
  else .error .ambiguousOrInvalidNumeric

/-- Strict ISO-8601 date production (§4.3): `YYYY` | `YYYY-MM` |
`YYYY-MM-DD` | `YYYYMMDD` | week date | ordinal date; the bare compact
6-digit form is rejected as ambiguous.  An omitted month or day
resolves to 1.  Returns the civil date and the remaining input. -/
def parseIsoDate (cs : List Char) :
    Except ParseError ((Nat × Nat × Nat) × List Char) :=
  if (takeDigits cs).1.length = 4 then
    let y := digitsVal (takeDigits cs).1
    match (takeDigits cs).2 with
    | c1 :: r2 =>
      if c1 = '-' then
        if (takeDigits r2).1.length = 2 then
          let mo := digitsVal (takeDigits r2).1
          if 1 ≤ mo ∧ mo ≤ 12 then
            match (takeDigits r2).2 with
            | c3 :: r4 =>
              if c3 = '-' then
                if (takeDigits r4).1.length = 2 then
                  let d := digitsVal (takeDigits r4).1
                  if 1 ≤ d ∧ d ≤ 31 then .ok ((y, mo, d), (takeDigits r4).2)
                  else .error .ambiguousOrInvalidNumeric
                else .error .malformedIsoGrammar
              else .ok ((y, mo, 1), c3 :: r4)
            | [] => .ok ((y, mo, 1), [])
          else .error .ambiguousOrInvalidNumeric
        else if (takeDigits r2).1.length = 3 then
          finishOrdinalDate y (digitsVal (takeDigits r2).1) (takeDigits r2).2
        else
          match (takeDigits r2).2 with
          | c2 :: r4 =>
            if c2 = 'W' ∧ (takeDigits r2).1.length = 0 then parseWeekTail y r4
            else .error .malformedIsoGrammar
          | [] => .error .malformedIsoGrammar
      else if c1 = 'W' then parseWeekTail y r2
      else .ok ((y, 1, 1), c1 :: r2)
    | [] => .ok ((y, 1, 1), [])
  else if (takeDigits cs).1.length = 8 then
    let n := digitsVal (takeDigits cs).1
    let mo := n / 100 % 100
    let d := n % 100
    if 1 ≤ mo ∧ mo ≤ 12 ∧ 1 ≤ d ∧ d ≤ 31 then
      .ok ((n / 10000, mo, d), (takeDigits cs).2)
    else .error .ambiguousOrInvalidNumeric
  else if (takeDigits cs).1.length = 7 then
    finishOrdinalDate (digitsVal (takeDigits cs).1 / 1000)
      (digitsVal (takeDigits cs).1 % 1000) (takeDigits cs).2
  else .error .malformedIsoGrammar

/-- Optional `.`/`,` fraction of 1-9 digits after the seconds, normalized
to 6 microsecond digits by truncation; returns the microsecond field and
the remaining input. -/
def parseFracTail (cs : List Char) :
    Except ParseError (Option Nat × List Char) :=
  match cs with
  | [] => .ok (none, [])
  | c :: r =>
    if c = '.' ∨ c = ',' then
      if 1 ≤ (takeDigits r).1.length ∧ (takeDigits r).1.length ≤ 9 then
        .ok (some (microsecondOfFraction (takeDigits r).1), (takeDigits r).2)
      else .error .malformedIsoGrammar
    else .ok (none, c :: r)

/-- Strict ISO-8601 time production (§4.3): `HH` | `HH:MM` | `HH:MM:SS`
and the compact forms `HHMM`/`HHMMSS`, with an optional fraction after
the seconds.  Returns (hour, minute, second, microsecond) with
unparsed components unset, and the remaining input. -/
def parseIsoTimeCore (cs : List Char) :
    Except ParseError ((Nat × Option Nat × Option Nat × Option Nat) × List Char) :=
  if (takeDigits cs).1.length = 2 then
    let h := digitsVal (takeDigits cs).1
    match (takeDigits cs).2 with
    | c1 :: r2 =>
      if c1 = ':' then
        if (takeDigits r2).1.length = 2 then
          let mi := digitsVal (takeDigits r2).1
          match (takeDigits r2).2 with
          | c2 :: r4 =>
            if c2 = ':' then
              if (takeDigits r4).1.length = 2 then
                match parseFracTail (takeDigits r4).2 with
                | .ok (us, r6) =>
                  .ok ((h, some mi, some (digitsVal (takeDigits r4).1), us), r6)
                | .error e => .error e
              else .error .malformedIsoGrammar
            else .ok ((h, some mi, none, none), c2 :: r4)
          | [] => .ok ((h, some mi, none, none), [])
        else .error .malformedIsoGrammar
      else .ok ((h, none, none, none), c1 :: r2)
    | [] => .ok ((h, none, none, none), [])
  else if (takeDigits cs).1.length = 4 then
    .ok ((digitsVal (takeDigits cs).1 / 100,
          some (digitsVal (takeDigits cs).1 % 100), none, none),
      (takeDigits cs).2)
  else if (takeDigits cs).1.length = 6 then
    match parseFracTail (takeDigits cs).2 with
    | .ok (us, r2) =>
      .ok ((digitsVal (takeDigits cs).1 / 10000,
            some (digitsVal (takeDigits cs).1 / 100 % 100),
            some (digitsVal (takeDigits cs).1 % 100), us), r2)
    | .error e => .error e
  else .error .malformedIsoGrammar

/-- Range-check the time components (§3): hour 0-23, minute 0-59,
second 0-59. -/
def validTime (h : Nat) (mi s : Option Nat) : Bool :=
  decide (h ≤ 23) && (match mi with | none => true | some v => decide (v ≤ 59))
    && (match s with | none => true | some v => decide (v ≤ 59))

/-- ISO time followed by an optional timezone designator, folded into a
`ParseResult`. -/
def parseIsoTimeTz (cs : List Char) :
    Except ParseError (ParseResult × List Char) :=
  match parseIsoTimeCore cs with
  | .error e => .error e
  | .ok ((h, mi, s, us), r1) =>
    if validTime h mi s then
      match parseIsoTz r1 with
      | .error e => .error e
      | .ok (off, name, r2) =>
        .ok ({ hour := some h, minute := mi, second := s, microsecond := us,
               tzoffset := off, tzname := name }, r2)
    else .error .ambiguousOrInvalidNumeric

end Opendate

namespace Opendate

/-- Is the remainder nothing but trailing whitespace (§4.3)? -/
def onlyWs (cs : List Char) : Bool := cs.all isWs

/-- Modelled from the spec: strict time-only entry point
`parse_isotime(input)` (§6).  Accepts exactly a time production followed
by optional whitespace. -/
def parse_isotimeChars (cs : List Char) : Except ParseError ParseResult :=
  match parseIsoTimeTz cs with
  | .error e => .error e
  | .ok (r, rest) => if onlyWs rest then .ok r else .error .malformedIsoGrammar

/-- Modelled from the spec: strict date-only entry point
`parse_isodate(input)` (§6). -/
def parse_isodateChars (cs : List Char) : Except ParseError ParseResult :=
  match parseIsoDate cs with
  | .error e => .error e
  | .ok ((y, mo, d), rest) =>
    if onlyWs rest then .ok { year := some y, month := some mo, day := some d }
    else .error .malformedIsoGrammar

/-- Modelled from the spec: strict combined entry point
`isoparse(input, sep)` (§6): a date production, optionally followed by
the configured separator and a time production with optional timezone;
trailing whitespace tolerated, anything else trailing is an error. -/
def isoparseSepChars (sep : Char) (cs : List Char) :
    Except ParseError ParseResult :=
  match parseIsoDate cs with
  | .error e => .error e
  | .ok ((y, mo, d), rest) =>
    match rest with
    | c :: r1 =>
      if c = sep then
        match parseIsoTimeTz r1 with
        | .error e => .error e
        | .ok (t, r2) =>
          if onlyWs r2 then
            .ok { t with year := some y, month := some mo, day := some d }
          else .error .malformedIsoGrammar
      else if onlyWs (c :: r1) then
        .ok { year := some y, month := some mo, day := some d }
      else .error .malformedIsoGrammar
    | [] => .ok { year := some y, month := some mo, day := some d }

/-- Entry point `isoparse` on a string with the default separator `T`. -/
def isoparse (s : String) : Except ParseError ParseResult :=
  isoparseSepChars 'T' s.data

/-- Entry point `parse_isotime` on a string. -/
def parse_isotime (s : String) : Except ParseError ParseResult :=
  parse_isotimeChars s.data

/-- Entry point `parse_isodate` on a string. -/
def parse_isodate (s : String) : Except ParseError ParseResult :=
  parse_isodateChars s.data

end Opendate

namespace Opendate

/-! ## Token stream builder (§4.1) -/

/-- Is `c` an ASCII letter? -/
def isLetterC (c : Char) : Bool :=
  (65 ≤ c.toNat && c.toNat ≤ 90) || (97 ≤ c.toNat && c.toNat ≤ 122)

/-- Modelled from the spec: a classified token (§3): a digit run, a
letter run, or a single separator character. -/
inductive Tok where
  | digits (ds : List Char)
  | letters (s : List Char)
  | sep (c : Char)
  deriving DecidableEq, Repr

/-- Emit a pending partial token. -/
def flushTok : Option Tok → List Tok
  | none => []
  | some t => [t]

/-- Single left-to-right pass splitting on digit/letter/other
transitions, carrying the token under construction. -/
def tokenizeAux : List Char → Option Tok → List Tok
  | [], acc => flushTok acc
  | c :: cs, acc =>
    if isDigitC c then
      match acc with
      | some (.digits ds) => tokenizeAux cs (some (.digits (ds ++ [c])))
      | _ => flushTok acc ++ tokenizeAux cs (some (.digits [c]))
    else if isLetterC c then
      match acc with
      | some (.letters s) => tokenizeAux cs (some (.letters (s ++ [c])))
      | _ => flushTok acc ++ tokenizeAux cs (some (.letters [c]))
    else
      flushTok acc ++ .sep c :: tokenizeAux cs none

/-- Modelled from the spec: `tokenize(input)` (§4.1).  Digit runs and
letter runs are single tokens of any length; every other character is a
single-character separator token.  Never fails. -/
def tokenize (cs : List Char) : List Tok := tokenizeAux cs none

/-! ## Heuristic resolver (§4.2) -/

/-- Resolver state: the partial result, the pending numeric
date-candidate runs (in input order), and the skipped-token list. -/
structure HState where
  res : ParseResult := {}
  dateNums : List (List Char) := []
  skipped : List (List Char) := []
  deriving DecidableEq, Repr

/-- Set an optional field, failing if it was already set (§3 invariant:
a field is set at most once per parse). -/
def setOnce {α : Type} (cur : Option α) (v : α) :
    Except ParseError (Option α) :=
  match cur with
  | none => .ok (some v)
  | some _ => .error .ambiguousOrInvalidNumeric

/-- Modelled from the spec: the trailing AM/PM hour shift (§4.2 step 1):
an hour 1-12 maps to 0-23 (12 AM → 0, 12 PM → 12, 1-11 PM → +12,
1-11 AM unchanged). -/
def ampmAdjust (pm : Bool) (h : Nat) : Nat :=
  if pm then (if h = 12 then 12 else h + 12)
  else (if h = 12 then 0 else h)

/-- Modelled from the spec: the `GMT±N` sign reversal (§4.2 step 5):
`GMT+N` means N hours behind the recorded offset, so the offset is the
negation of N hours in seconds. -/
def gmtNamedOffset (neg : Bool) (hours : Nat) : Int :=
  if neg then Int.ofNat (hours * 3600) else -Int.ofNat (hours * 3600)

/-- Expand a date-candidate year run: runs of 1-2 digits go through the
sliding century window, longer runs are taken literally. -/
def yearNum (cfg : Config) (ds : List Char) : Nat :=
  if ds.length ≤ 2 then expandTwoDigitYear cfg.currentYear (digitsVal ds)
  else digitsVal ds

/-- Order the two non-year runs of a date as (month, day) by
`dayfirst` (§4.2 step 3). -/
def pairMD (cfg : Config) (x y : List Char) : Option Nat × Option Nat :=
  if cfg.dayfirst then (some (digitsVal y), some (digitsVal x))
  else (some (digitsVal x), some (digitsVal y))

/-- Modelled from the spec: resolution of a 3-numeric-token date (§4.2
step 3) as (year, month, day).  If exactly one token has 4 digits it is
the year regardless of position and the other two are ordered by
`dayfirst`; if no token has 4 digits the year is chosen by `yearfirst`
(default: last position) and the rest ordered by `dayfirst`; two 4-digit
tokens are ambiguous (§7). -/
def resolveThree (cfg : Config) (a b c : List Char) :
    Except ParseError (Option Nat × Option Nat × Option Nat) :=
  if a.length = 4 ∧ b.length ≠ 4 ∧ c.length ≠ 4 then
    .ok (some (digitsVal a), pairMD cfg b c)
  else if b.length = 4 ∧ a.length ≠ 4 ∧ c.length ≠ 4 then
    .ok (some (digitsVal b), pairMD cfg a c)
  else if c.length = 4 ∧ a.length ≠ 4 ∧ b.length ≠ 4 then
    .ok (some (digitsVal c), pairMD cfg a b)
  else if a.length ≠ 4 ∧ b.length ≠ 4 ∧ c.length ≠ 4 then
    if cfg.yearfirst then .ok (some (yearNum cfg a), pairMD cfg b c)
    else .ok (some (yearNum cfg c), pairMD cfg a b)
  else .error .ambiguousOrInvalidNumeric

/-- Modelled from the spec: a compact 6-digit run split into three
2-digit fields and permuted into one of MMDDYY/DDMMYY/YYMMDD/YYDDMM via
the joint `yearfirst`+`dayfirst` configuration (§4.2 step 3); result is
(year, month, day). -/
def resolveSix (cfg : Config) (ds : List Char) : Nat × Nat × Nat :=
  let a := digitsVal (ds.take 2)
  let b := digitsVal ((ds.drop 2).take 2)
  let c := digitsVal (ds.drop 4)
  let yr := expandTwoDigitYear cfg.currentYear
  match cfg.yearfirst, cfg.dayfirst with
  | false, false => (yr c, a, b)
  | false, true => (yr c, b, a)
  | true, false => (yr a, b, c)
  | true, true => (yr a, c, b)

end Opendate

namespace Opendate

/-- Record time components read from a `H:M(:S(.frac))` idiom (§4.2
step 2), each field set at most once. -/
def setTime (st : HState) (hs ms : List Char) (ss fs : Option (List Char)) :
    Except ParseError HState := do
  let h ← setOnce st.res.hour (digitsVal hs)
  let mi ← setOnce st.res.minute (digitsVal ms)
  let s ← match ss with
    | none => pure st.res.second
    | some v => setOnce st.res.second (digitsVal v)
  let us ← match fs with
    | none => pure st.res.microsecond
    | some v => setOnce st.res.microsecond (microsecondOfFraction v)
  pure { st with res :=
    { st.res with hour := h, minute := mi, second := s, microsecond := us } }

/-- Record a timezone offset and name, each field set at most once. -/
def setTz (st : HState) (off : Option Int) (name : Option String) :
    Except ParseError HState := do
  let o ← match off with
    | none => pure st.res.tzoffset
    | some v => setOnce st.res.tzoffset v
  let n ← match name with
    | none => pure st.res.tzname
    | some v => setOnce st.res.tzname v
  pure { st with res := { st.res with tzoffset := o, tzname := n } }

/-- Record a compact 6- or 8-digit date (§4.2 step 3), fields set at
most once. -/
def setYMD (st : HState) (y mo d : Nat) : Except ParseError HState := do
  let yv ← setOnce st.res.year y
  let mv ← setOnce st.res.month mo
  let dv ← setOnce st.res.day d
  pure { st with res := { st.res with year := yv, month := mv, day := dv } }

/-- Consume a bare digit run (§4.2 steps 3 and 6): runs of 1-4 digits
become date candidates, a 6-digit run is split by the joint flags, an
8-digit run is always YYYYMMDD; any other length is unattributable -
skipped in fuzzy mode, an error otherwise. -/
def consumeBareDigits (cfg : Config) (st : HState) (ds : List Char) :
    Except ParseError HState :=
  if ds.length ≤ 4 then .ok { st with dateNums := st.dateNums ++ [ds] }
  else if ds.length = 6 then
    let (y, mo, d) := resolveSix cfg ds
    setYMD st y mo d
  else if ds.length = 8 then
    let n := digitsVal ds
    setYMD st (n / 10000) (n / 100 % 100) (n % 100)
  else if cfg.fuzzy then .ok { st with skipped := st.skipped ++ [ds] }
  else .error .unrecognizedToken

/-- Consume a letter run (§4.2 steps 1 and 5): AM/PM markers, the fixed
offset names `UTC`/`GMT`/`Z`, and the ISO `T` separator; anything else
is unattributable - appended to the skip list in fuzzy mode, an error
otherwise.  (Month and weekday name tables are outside the portion of
the resolver modelled here; none of the verified properties involve
them.) -/
def consumeLetters (cfg : Config) (st : HState) (s : List Char) :
    Except ParseError HState :=
  let l := s.map Char.toLower
  if l = ['a', 'm'] then
    match st.res.hour with
    | some h => .ok { st with res := { st.res with hour := some (ampmAdjust false h) } }
    | none => if cfg.fuzzy then .ok { st with skipped := st.skipped ++ [s] }
              else .error .unrecognizedToken
  else if l = ['p', 'm'] then
    match st.res.hour with
    | some h => .ok { st with res := { st.res with hour := some (ampmAdjust true h) } }
    | none => if cfg.fuzzy then .ok { st with skipped := st.skipped ++ [s] }
              else .error .unrecognizedToken
  else if l = ['u', 't', 'c'] || l = ['z'] then setTz st (some 0) (some "UTC")
  else if l = ['g', 'm', 't'] then setTz st (some 0) (some "GMT")
  else if l = ['t'] then .ok st
  else if cfg.fuzzy then .ok { st with skipped := st.skipped ++ [s] }
  else .error .unrecognizedToken

/-- Modelled from the spec: the heuristic resolver's single
left-to-right pass over the token stream (§4.2), with small constant
lookahead for the multi-token idioms `H:M(:S(.frac))`, `GMT±N` and
signed numeric offsets.  The fuel argument only bounds the recursion;
every step consumes at least one token, so any fuel of at least the
token count gives the same result. -/
def hloop (cfg : Config) : Nat → List Tok → HState → Except ParseError HState
  | _, [], st => .ok st
  | 0, _ :: _, _ => .error .unrecognizedToken
  | fuel + 1, .digits hs :: .sep ':' :: .digits ms :: rest, st =>
    if hs.length ≤ 2 ∧ ms.length = 2 then
      match rest with
      | .sep ':' :: .digits ss :: rest2 =>
        if ss.length = 2 then
          match rest2 with
          | .sep f :: .digits fs :: rest3 =>
            if (f = '.' ∨ f = ',') ∧ 1 ≤ fs.length ∧ fs.length ≤ 9 then
              match setTime st hs ms (some ss) (some fs) with
              | .ok st' => hloop cfg fuel rest3 st'
              | .error e => .error e
            else
              match setTime st hs ms (some ss) none with
              | .ok st' => hloop cfg fuel rest2 st'
              | .error e => .error e
          | _ =>
            match setTime st hs ms (some ss) none with
            | .ok st' => hloop cfg fuel rest2 st'
            | .error e => .error e
        else .error .ambiguousOrInvalidNumeric
      | _ =>
        match setTime st hs ms none none with
        | .ok st' => hloop cfg fuel rest st'
        | .error e => .error e
    else
      match consumeBareDigits cfg st hs with
      | .ok st' => hloop cfg fuel (.sep ':' :: .digits ms :: rest) st'
      | .error e => .error e
  | fuel + 1, .letters s :: rest, st =>
    let l := s.map Char.toLower
    if l = ['g', 'm', 't'] then
      match rest with
      | .sep c :: .digits ns :: rest2 =>
        if (c = '+' ∨ c = '-') ∧ ns.length ≤ 2 then
          match setTz st (some (gmtNamedOffset (c = '-') (digitsVal ns))) (some "GMT") with
          | .ok st' => hloop cfg fuel rest2 st'
          | .error e => .error e
        else
          match consumeLetters cfg st s with
          | .ok st' => hloop cfg fuel rest st'
          | .error e => .error e
      | _ =>
        match consumeLetters cfg st s with
        | .ok st' => hloop cfg fuel rest st'
        | .error e => .error e
    else
      match consumeLetters cfg st s with
      | .ok st' => hloop cfg fuel rest st'
      | .error e => .error e
  | fuel + 1, .sep c :: .digits ds :: rest, st =>
    if (c = '+' ∨ c = '-') ∧ st.res.hour.isSome then
      if ds.length = 4 then
        let mag := digitsVal ds / 100 * 3600 + digitsVal ds % 100 * 60
        let off : Int := if c = '-' then -Int.ofNat mag else Int.ofNat mag
        match setTz st (some off) none with
        | .ok st' => hloop cfg fuel rest st'
        | .error e => .error e
      else if ds.length ≤ 2 then
        match rest with
        | .sep ':' :: .digits ms :: rest2 =>
          if ms.length = 2 then
            let mag := digitsVal ds * 3600 + digitsVal ms * 60
            let off : Int := if c = '-' then -Int.ofNat mag else Int.ofNat mag
            match setTz st (some off) none with
            | .ok st' => hloop cfg fuel rest2 st'
            | .error e => .error e
          else .error .ambiguousOrInvalidNumeric
        | _ =>
          let mag := digitsVal ds * 3600
          let off : Int := if c = '-' then -Int.ofNat mag else Int.ofNat mag
          match setTz st (some off) none with
          | .ok st' => hloop cfg fuel rest st'
          | .error e => .error e
      else
        match consumeBareDigits cfg st ds with
        | .ok st' => hloop cfg fuel rest st'
        | .error e => .error e
    else
      hloop cfg fuel (.digits ds :: rest) st
  | fuel + 1, .digits ds :: rest, st =>
    match consumeBareDigits cfg st ds with
    | .ok st' => hloop cfg fuel rest st'
    | .error e => .error e
  | fuel + 1, .sep _ :: rest, st => hloop cfg fuel rest st

end Opendate

namespace Opendate

/-- Resolve the pending numeric date candidates collected during the
pass (§4.2 step 3): three candidates go through `resolveThree`; a single
4-digit candidate is a year, a shorter single candidate a day; two
candidates are a (month, day) pair ordered by `dayfirst`, with a 4-digit
member taken as the year; more than three are ambiguous. -/
def finalizeDates (cfg : Config) (st : HState) : Except ParseError HState :=
  match st.dateNums with
  | [] => .ok st
  | [a] =>
    if a.length = 4 then
      do pure { st with res := { st.res with year := ← setOnce st.res.year (digitsVal a) } }
    else
      do pure { st with res := { st.res with day := ← setOnce st.res.day (digitsVal a) } }
  | [a, b] =>
    if a.length = 4 ∧ b.length ≠ 4 then do
      let y ← setOnce st.res.year (digitsVal a)
      let mo ← setOnce st.res.month (digitsVal b)
      pure { st with res := { st.res with year := y, month := mo } }
    else if b.length = 4 ∧ a.length ≠ 4 then do
      let y ← setOnce st.res.year (digitsVal b)
      let mo ← setOnce st.res.month (digitsVal a)
      pure { st with res := { st.res with year := y, month := mo } }
    else do
      let (mo, d) := pairMD cfg a b
      let mv ← match mo with
        | none => pure st.res.month
        | some v => setOnce st.res.month v
      let dv ← match d with
        | none => pure st.res.day
        | some v => setOnce st.res.day v
      pure { st with res := { st.res with month := mv, day := dv } }
  | [a, b, c] =>
    match resolveThree cfg a b c with
    | .error e => .error e
    | .ok (y, mo, d) => do
      let yv ← match y with
        | none => pure st.res.year
        | some v => setOnce st.res.year v
      let mv ← match mo with
        | none => pure st.res.month
        | some v => setOnce st.res.month v
      let dv ← match d with
        | none => pure st.res.day
        | some v => setOnce st.res.day v
      pure { st with res := { st.res with year := yv, month := mv, day := dv } }
  | _ => .error .ambiguousOrInvalidNumeric

/-- Range-check every set field of a result (§3): month 1-12, day 1-31,
hour 0-23, minute 0-59, second 0-59, microsecond 0-999999,
weekday 0-6. -/
def validResult (r : ParseResult) : Bool :=
  (match r.month with | none => true | some v => decide (1 ≤ v ∧ v ≤ 12)) &&
  (match r.day with | none => true | some v => decide (1 ≤ v ∧ v ≤ 31)) &&
  (match r.hour with | none => true | some v => decide (v ≤ 23)) &&
  (match r.minute with | none => true | some v => decide (v ≤ 59)) &&
  (match r.second with | none => true | some v => decide (v ≤ 59)) &&
  (match r.microsecond with | none => true | some v => decide (v ≤ 999999)) &&
  (match r.weekday with | none => true | some v => decide (v ≤ 6))

/-- Does the result carry at least one date or time field (§3
invariant for a successful heuristic parse)? -/
def hasComponents (r : ParseResult) : Bool :=
  r.year.isSome || r.month.isSome || r.day.isSome || r.hour.isSome ||
    r.minute.isSome || r.second.isSome || r.microsecond.isSome

/-- The heuristic resolver on a token stream: run the pass with
sufficient fuel, resolve pending date candidates, then validate. -/
def hparseToks (cfg : Config) (toks : List Tok) : Except ParseError HState :=
  match hloop cfg toks.length toks {} with
  | .error e => .error e
  | .ok st =>
    match finalizeDates cfg st with
    | .error e => .error e
    | .ok st2 =>
      if validResult st2.res then
        if hasComponents st2.res then .ok st2
        else .error .noComponentsFound
      else .error .ambiguousOrInvalidNumeric

/-- Modelled from the spec: the heuristic entry point
`parse(input, config)` (§6). -/
def parse (cfg : Config) (s : String) : Except ParseError ParseResult :=
  (hparseToks cfg (tokenize s.data)).map (·.res)

/-- Modelled from the spec: the heuristic entry point
`parse_fuzzy_with_tokens(input, config)` (§6): requires fuzzy mode and
additionally returns the ordered skipped-token list. -/
def parse_fuzzy_with_tokens (cfg : Config) (s : String) :
    Except ParseError (ParseResult × List (List Char)) :=
  (hparseToks { cfg with fuzzy := true } (tokenize s.data)).map
    (fun st => (st.res, st.skipped))

end Opendate

namespace Opendate

/-! ## Component serialization (§8 round-trip) -/

/-- Two-digit zero-padded rendering of `n < 100`. -/
def pad2 (n : Nat) : List Char := [digitChar (n / 10 % 10), digitChar (n % 10)]

/-- Four-digit zero-padded rendering of `n < 10000`. -/
def pad4 (n : Nat) : List Char := pad2 (n / 100) ++ pad2 (n % 100)

/-- Six-digit zero-padded rendering of `n < 1000000`. -/
def pad6 (n : Nat) : List Char := pad2 (n / 10000) ++ pad4 (n % 10000)

/-- Re-serialize resolved date components with the grammar's separator
and zero-padding: `YYYY-MM-DD`. -/
def serializeDate (y mo d : Nat) : List Char :=
  pad4 y ++ '-' :: (pad2 mo ++ '-' :: pad2 d)

/-! ## Digit-run lemmas -/

theorem digitVal_lt_ten {c : Char} (h : isDigitC c = true) : digitVal c < 10 := by
  simp only [isDigitC, Bool.and_eq_true, decide_eq_true_eq] at h
  simp only [digitVal]
  omega

theorem isDigitC_digitChar_mod (n : Nat) :
    isDigitC (digitChar (n % 10)) = true := by
  have h : n % 10 < 10 := Nat.mod_lt _ (by norm_num)
  interval_cases h' : n % 10 <;> decide

theorem digitVal_digitChar_mod (n : Nat) :
    digitVal (digitChar (n % 10)) = n % 10 := by
  have h : n % 10 < 10 := Nat.mod_lt _ (by norm_num)
  interval_cases h' : n % 10 <;> simp_all <;> decide

theorem digitsVal_foldl (l : List Char) (a : Nat) :
    l.foldl (fun a c => 10 * a + digitVal c) a =
      a * 10 ^ l.length + digitsVal l := by
  induction l generalizing a with
  | nil => simp [digitsVal]
  | cons c t ih =>
    simp only [List.foldl_cons, List.length_cons, digitsVal]
    rw [ih, ih (10 * 0 + digitVal c)]
    ring

theorem digitsVal_cons (c : Char) (t : List Char) :
    digitsVal (c :: t) = digitVal c * 10 ^ t.length + digitsVal t := by
  calc digitsVal (c :: t)
      = t.foldl (fun a c => 10 * a + digitVal c) (10 * 0 + digitVal c) := rfl
    _ = (10 * 0 + digitVal c) * 10 ^ t.length + digitsVal t :=
        digitsVal_foldl t (10 * 0 + digitVal c)
    _ = digitVal c * 10 ^ t.length + digitsVal t := by ring

theorem digitsVal_append (l₁ l₂ : List Char) :
    digitsVal (l₁ ++ l₂) = digitsVal l₁ * 10 ^ l₂.length + digitsVal l₂ := by
  simp only [digitsVal, List.foldl_append]
  rw [digitsVal_foldl]
  rfl

theorem digitsVal_lt_pow (l : List Char) (h : ∀ c ∈ l, isDigitC c = true) :
    digitsVal l < 10 ^ l.length := by
  induction l with
  | nil => simp [digitsVal]
  | cons c t ih =>
    have hc : digitVal c < 10 := digitVal_lt_ten (h c (by simp))
    have ht := ih (fun x hx => h x (by simp [hx]))
    rw [digitsVal_cons]
    have h1 : digitVal c * 10 ^ t.length ≤ 9 * 10 ^ t.length :=
      Nat.mul_le_mul_right _ (by omega)
    calc digitVal c * 10 ^ t.length + digitsVal t
        < digitVal c * 10 ^ t.length + 10 ^ t.length := by omega
      _ ≤ 9 * 10 ^ t.length + 10 ^ t.length := by omega
      _ = 10 ^ (t.length + 1) := by ring
      _ = 10 ^ (c :: t).length := by simp

theorem takeDigits_cons_digit {c : Char} (h : isDigitC c = true)
    (cs : List Char) :
    takeDigits (c :: cs) = ((c :: (takeDigits cs).1), (takeDigits cs).2) := by
  simp [takeDigits, h]

theorem takeDigits_cons_nondigit {c : Char} (h : isDigitC c = false)
    (cs : List Char) : takeDigits (c :: cs) = ([], c :: cs) := by
  simp [takeDigits, h]

theorem takeDigits_append (l r : List Char)
    (hl : ∀ c ∈ l, isDigitC c = true)
    (hr : r = [] ∨ ∃ c r', r = c :: r' ∧ isDigitC c = false) :
    takeDigits (l ++ r) = (l, r) := by
  induction l with
  | nil =>
    rcases hr with rfl | ⟨c, r', rfl, hc⟩
    · rfl
    · simpa using takeDigits_cons_nondigit hc r'
  | cons c t ih =>
    have hc : isDigitC c = true := hl c (by simp)
    have ht := ih (fun x hx => hl x (by simp [hx]))
    simp [takeDigits_cons_digit hc, ht]

end Opendate

namespace Opendate

/-! ## Zero-padding lemmas -/

theorem pad2_all_digits (n : Nat) : ∀ c ∈ pad2 n, isDigitC c = true := by
  intro c hc
  simp only [pad2, List.mem_cons, List.not_mem_nil, or_false] at hc
  rcases hc with rfl | rfl <;> exact isDigitC_digitChar_mod _

theorem pad4_all_digits (n : Nat) : ∀ c ∈ pad4 n, isDigitC c = true := by
  intro c hc
  simp only [pad4, List.mem_append] at hc
  rcases hc with h | h <;> exact pad2_all_digits _ c h

theorem pad6_all_digits (n : Nat) : ∀ c ∈ pad6 n, isDigitC c = true := by
  intro c hc
  simp only [pad6, List.mem_append] at hc
  rcases hc with h | h
  · exact pad2_all_digits _ c h
  · exact pad4_all_digits _ c h

theorem length_pad2 (n : Nat) : (pad2 n).length = 2 := rfl

theorem length_pad4 (n : Nat) : (pad4 n).length = 4 := rfl

theorem length_pad6 (n : Nat) : (pad6 n).length = 6 := rfl

theorem digitsVal_pad2 {n : Nat} (h : n < 100) : digitsVal (pad2 n) = n := by
  have h0 : digitsVal ([] : List Char) = 0 := rfl
  simp only [pad2, digitsVal_cons, digitVal_digitChar_mod, h0,
    List.length_cons, List.length_nil, pow_one, pow_zero, mul_one, pow_succ]
  omega

theorem digitsVal_pad4 {n : Nat} (h : n < 10000) : digitsVal (pad4 n) = n := by
  rw [pad4, digitsVal_append, digitsVal_pad2 (by omega), digitsVal_pad2 (by omega),
    length_pad2]
  omega

theorem digitsVal_pad6 {n : Nat} (h : n < 1000000) : digitsVal (pad6 n) = n := by
  rw [pad6, digitsVal_append, digitsVal_pad2 (by omega), digitsVal_pad4 (by omega),
    length_pad4]
  omega

end Opendate

namespace Opendate

/-- Truncation view of fraction normalization: the 6-digit microsecond
value equals the value of the first six digits, right-padded with zeros
when the fraction is shorter than six digits. -/
theorem microsecondOfFraction_take (ds : List Char)
    (hd : ∀ c ∈ ds, isDigitC c = true) :
    microsecondOfFraction ds =
      digitsVal (ds.take 6) * 10 ^ (6 - min ds.length 6) := by
  by_cases hle : ds.length ≤ 6
  · simp only [microsecondOfFraction, if_pos hle]
    rw [List.take_of_length_le hle, min_eq_left hle]
  · push_neg at hle
    simp only [microsecondOfFraction, if_neg (by omega : ¬ds.length ≤ 6)]
    rw [min_eq_right (by omega : 6 ≤ ds.length), Nat.sub_self, pow_zero,
      mul_one]
    have hlen : (ds.drop 6).length = ds.length - 6 := by simp
    have hlt : digitsVal (ds.drop 6) < 10 ^ (ds.length - 6) := by
      rw [← hlen]
      exact digitsVal_lt_pow _ (fun c hc => hd c (List.mem_of_mem_drop hc))
    have hsplit : digitsVal ds =
        digitsVal (ds.take 6) * 10 ^ (ds.length - 6) + digitsVal (ds.drop 6) := by
      conv_lhs => rw [← List.take_append_drop 6 ds]
      rw [digitsVal_append, hlen]
    rw [hsplit, mul_comm, Nat.mul_add_div (by positivity),
      Nat.div_eq_of_lt hlt, add_zero]

end Opendate

namespace Opendate

/-- The conversion anchor really is the year's first Thursday: the day
`firstThursday y` always falls on a Thursday (Monday = 0, Thursday = 3). -/
theorem weekdayOf_firstThursday (y : Nat) : weekdayOf (firstThursday y) = 3 := by
  simp only [firstThursday, weekdayOf]
  generalize daysFromCivil y 1 1 = j
  omega

end Opendate

/-- C3: the strict ISO-8601 resolver converts week dates by the rule
that week 1 contains the year's first Thursday (the anchor day is always
a Thursday), rolling across civil-year boundaries in both directions:
`2015W53` → 2015-12-28, `2009-W53-7` → 2010-01-03, and `2009-W01-1` →
2008-12-29. -/
theorem iso_week_date_conversion :
    (∀ y, Opendate.weekdayOf (Opendate.firstThursday y) = 3) ∧
    Opendate.isoparse "2015W53" =
      .ok { year := some 2015, month := some 12, day := some 28 } ∧
    Opendate.isoparse "2009-W53-7" =
      .ok { year := some 2010, month := some 1, day := some 3 } ∧
    Opendate.isoparse "2009-W01-1" =
      .ok { year := some 2008, month := some 12, day := some 29 } :=
  ⟨Opendate.weekdayOf_firstThursday, rfl, rfl, rfl⟩

/-- C10: strict ISO date productions that omit the month or the day set
the omitted fields to 1 in the result (and week forms without a weekday
resolve to the week's Monday) rather than leaving them unset:
`2016` → 2016-01-01, `2016-10` → 2016-10-01, `2012W05` → 2012-01-30. -/
theorem iso_partial_date_defaults :
    Opendate.isoparse "2016" =
      .ok { year := some 2016, month := some 1, day := some 1 } ∧
    Opendate.isoparse "2016-10" =
      .ok { year := some 2016, month := some 10, day := some 1 } ∧
    Opendate.isoparse "2012W05" =
      .ok { year := some 2012, month := some 1, day := some 30 } :=
  ⟨rfl, rfl, rfl⟩

/-- C4: a 1-9 digit fractional second always sets the microsecond field
to the value of the fraction right-padded or truncated to 6 digits,
never rounded, in both resolvers: `.1` → 100000, `.123` → 123000,
`.123456789` → 123456. -/
theorem fraction_truncates_to_microseconds :
    (∀ ds : List Char, (∀ c ∈ ds, Opendate.isDigitC c = true) →
      1 ≤ ds.length → ds.length ≤ 9 →
      Opendate.microsecondOfFraction ds =
        Opendate.digitsVal (ds.take 6) * 10 ^ (6 - min ds.length 6)) ∧
    (Opendate.parse {} "10:30:45.1").map Opendate.ParseResult.microsecond =
      .ok (some 100000) ∧
    (Opendate.parse {} "10:30:45.123").map Opendate.ParseResult.microsecond =
      .ok (some 123000) ∧
    (Opendate.parse {} "10:30:45.123456789").map Opendate.ParseResult.microsecond =
      .ok (some 123456) ∧
    (Opendate.isoparse "2024-01-15T10:30:45.1").map Opendate.ParseResult.microsecond =
      .ok (some 100000) ∧
    (Opendate.isoparse "2024-01-15T10:30:45.123").map Opendate.ParseResult.microsecond =
      .ok (some 123000) ∧
    (Opendate.isoparse "2024-01-15T10:30:45.123456789").map
        Opendate.ParseResult.microsecond = .ok (some 123456) :=
  ⟨fun ds hd _ _ => Opendate.microsecondOfFraction_take ds hd,
   rfl, rfl, rfl, rfl, rfl, rfl⟩

/-- C4 witness: the general part instantiated on the 9-digit fraction
`123456789`, whose microsecond value is the truncation 123456. -/
theorem fraction_truncates_to_microseconds_witness :
    Opendate.microsecondOfFraction
        ['1', '2', '3', '4', '5', '6', '7', '8', '9'] =
      Opendate.digitsVal
        (['1', '2', '3', '4', '5', '6', '7', '8', '9'].take 6) *
        10 ^ (6 - min (['1', '2', '3', '4', '5', '6', '7', '8', '9'] :
          List Char).length 6) :=
  fraction_truncates_to_microseconds.1 _ (by decide) (by decide) (by decide)

/-- C2: a compact 6-digit run is split into three 2-digit fields and
assigned by the joint `yearfirst`+`dayfirst` configuration -
(false, false) reads MMDDYY, (false, true) reads DDMMYY, (true, false)
reads YYMMDD, (true, true) reads YYDDMM - so `090107` parses to
2007-09-01 by default, 2009-01-07 with yearfirst, 2007-01-09 with
dayfirst, and 2009-07-01 with both. -/
theorem compact_six_digit_permutation :
    (∀ (cfg : Opendate.Config) (ds : List Char), ds.length = 6 →
      cfg.yearfirst = false → cfg.dayfirst = false →
      Opendate.resolveSix cfg ds =
        (Opendate.expandTwoDigitYear cfg.currentYear
           (Opendate.digitsVal (ds.drop 4)),
         Opendate.digitsVal (ds.take 2),
         Opendate.digitsVal ((ds.drop 2).take 2))) ∧
    (∀ (cfg : Opendate.Config) (ds : List Char), ds.length = 6 →
      cfg.yearfirst = false → cfg.dayfirst = true →
      Opendate.resolveSix cfg ds =
        (Opendate.expandTwoDigitYear cfg.currentYear
           (Opendate.digitsVal (ds.drop 4)),
         Opendate.digitsVal ((ds.drop 2).take 2),
         Opendate.digitsVal (ds.take 2))) ∧
    (∀ (cfg : Opendate.Config) (ds : List Char), ds.length = 6 →
      cfg.yearfirst = true → cfg.dayfirst = false →
      Opendate.resolveSix cfg ds =
        (Opendate.expandTwoDigitYear cfg.currentYear
           (Opendate.digitsVal (ds.take 2)),
         Opendate.digitsVal ((ds.drop 2).take 2),
         Opendate.digitsVal (ds.drop 4))) ∧
    (∀ (cfg : Opendate.Config) (ds : List Char), ds.length = 6 →
      cfg.yearfirst = true → cfg.dayfirst = true →
      Opendate.resolveSix cfg ds =
        (Opendate.expandTwoDigitYear cfg.currentYear
           (Opendate.digitsVal (ds.take 2)),
         Opendate.digitsVal (ds.drop 4),
         Opendate.digitsVal ((ds.drop 2).take 2))) ∧
    Opendate.parse {} "090107" =
      .ok { year := some 2007, month := some 9, day := some 1 } ∧
    Opendate.parse { yearfirst := true } "090107" =
      .ok { year := some 2009, month := some 1, day := some 7 } ∧
    Opendate.parse { dayfirst := true } "090107" =
      .ok { year := some 2007, month := some 1, day := some 9 } ∧
    Opendate.parse { dayfirst := true, yearfirst := true } "090107" =
      .ok { year := some 2009, month := some 7, day := some 1 } := by
  refine ⟨?_, ?_, ?_, ?_, rfl, rfl, rfl, rfl⟩ <;>
    · intro cfg ds _ hy hd
      simp [Opendate.resolveSix, hy, hd]

/-- C2 witness: the (false, false) MMDDYY reading instantiated on the
digits of `090107` with the default configuration. -/
theorem compact_six_digit_permutation_witness :
    Opendate.resolveSix {} ['0', '9', '0', '1', '0', '7'] =
      (Opendate.expandTwoDigitYear (Opendate.Config.currentYear {})
         (Opendate.digitsVal (['0', '9', '0', '1', '0', '7'].drop 4)),
       Opendate.digitsVal (['0', '9', '0', '1', '0', '7'].take 2),
       Opendate.digitsVal ((['0', '9', '0', '1', '0', '7'].drop 2).take 2)) :=
  compact_six_digit_permutation.1 {} _ (by decide) rfl rfl

/-- C1: in a 3-numeric-token date with exactly one 4-digit token, that
token is assigned to the year field for every combination of the
`dayfirst` and `yearfirst` flags, at whichever position it occurs;
end to end, `09-25-2003` → year 2003, `25-09-2003` with dayfirst → year
2003, and `15/01/2024` with dayfirst → 2024-01-15. -/
theorem four_digit_token_is_year :
    (∀ (cfg : Opendate.Config) (a b c : List Char), a.length = 4 →
      b.length ≠ 4 → c.length ≠ 4 →
      (Opendate.resolveThree cfg a b c).map (·.1) =
        .ok (some (Opendate.digitsVal a))) ∧
    (∀ (cfg : Opendate.Config) (a b c : List Char), b.length = 4 →
      a.length ≠ 4 → c.length ≠ 4 →
      (Opendate.resolveThree cfg a b c).map (·.1) =
        .ok (some (Opendate.digitsVal b))) ∧
    (∀ (cfg : Opendate.Config) (a b c : List Char), c.length = 4 →
      a.length ≠ 4 → b.length ≠ 4 →
      (Opendate.resolveThree cfg a b c).map (·.1) =
        .ok (some (Opendate.digitsVal c))) ∧
    Opendate.parse {} "09-25-2003" =
      .ok { year := some 2003, month := some 9, day := some 25 } ∧
    Opendate.parse { dayfirst := true } "25-09-2003" =
      .ok { year := some 2003, month := some 9, day := some 25 } ∧
    Opendate.parse { dayfirst := true } "15/01/2024" =
      .ok { year := some 2024, month := some 1, day := some 15 } := by
  refine ⟨?_, ?_, ?_, rfl, rfl, rfl⟩ <;>
    · intro cfg a b c h1 h2 h3
      simp [Opendate.resolveThree, h1, h2, h3, Except.map]

/-- C1 witness: the first conjunct instantiated on the token runs of
`2003-09-25` with the default configuration. -/
theorem four_digit_token_is_year_witness :
    (Opendate.resolveThree {} "2003".data "09".data "25".data).map (·.1) =
      .ok (some (Opendate.digitsVal "2003".data)) :=
  four_digit_token_is_year.1 {} _ _ _ (by decide) (by decide) (by decide)

/-- C6: a trailing AM/PM marker maps a parsed hour 1-12 to 0-23:
12 AM → 0, 12 PM → 12, 1-11 PM → +12, 1-11 AM unchanged; the resolver
applies exactly this shift to the recorded hour, and end to end
`12:00 AM` → hour 0, `12:00 PM` → hour 12, `2:30 PM` → hour 14. -/
theorem ampm_hour_shift :
    Opendate.ampmAdjust false 12 = 0 ∧
    Opendate.ampmAdjust true 12 = 12 ∧
    (∀ h, 1 ≤ h → h ≤ 11 → Opendate.ampmAdjust true h = h + 12) ∧
    (∀ h, 1 ≤ h → h ≤ 11 → Opendate.ampmAdjust false h = h) ∧
    (∀ (cfg : Opendate.Config) (st : Opendate.HState) (s : List Char) (h : Nat),
      s.map Char.toLower = ['a', 'm'] → st.res.hour = some h →
      Opendate.consumeLetters cfg st s =
        .ok { st with res :=
          { st.res with hour := some (Opendate.ampmAdjust false h) } }) ∧
    (∀ (cfg : Opendate.Config) (st : Opendate.HState) (s : List Char) (h : Nat),
      s.map Char.toLower = ['p', 'm'] → st.res.hour = some h →
      Opendate.consumeLetters cfg st s =
        .ok { st with res :=
          { st.res with hour := some (Opendate.ampmAdjust true h) } }) ∧
    Opendate.parse {} "12:00 AM" =
      .ok { hour := some 0, minute := some 0 } ∧
    Opendate.parse {} "12:00 PM" =
      .ok { hour := some 12, minute := some 0 } ∧
    Opendate.parse {} "2:30 PM" =
      .ok { hour := some 14, minute := some 30 } := by
  refine ⟨rfl, rfl, ?_, ?_, ?_, ?_, rfl, rfl, rfl⟩
  · intro h h1 h2
    simp only [Opendate.ampmAdjust, if_true, if_pos]
    rw [if_neg (by omega)]
  · intro h h1 h2
    simp only [Opendate.ampmAdjust, Bool.false_eq_true, if_false]
    rw [if_neg (by omega)]
  · intro cfg st s h hs hh
    simp [Opendate.consumeLetters, hs, hh]
  · intro cfg st s h hs hh
    simp [Opendate.consumeLetters, hs, hh]

/-- C6 witness: the 1-11 PM shift at hour 2 and the resolver step on the
marker `PM` with hour 2 recorded. -/
theorem ampm_hour_shift_witness :
    Opendate.ampmAdjust true 2 = 2 + 12 ∧
    Opendate.consumeLetters {} { res := { hour := some 2 } } ['P', 'M'] =
      .ok { res := { hour := some (Opendate.ampmAdjust true 2) } } :=
  ⟨ampm_hour_shift.2.2.1 2 (by decide) (by decide),
   ampm_hour_shift.2.2.2.2.2.1 {} { res := { hour := some 2 } } ['P', 'M'] 2
     (by decide) rfl⟩

/-- C5: a `GMT` token immediately followed by a signed hour count N sets
`tzoffset` to the negation of N hours in seconds, at any point of the
pass and under any configuration; bare `UTC`/`GMT` set `tzoffset` 0.
End to end, `GMT+3` → -10800, `GMT-5` → +18000. -/
theorem gmt_sign_reversal :
    (∀ (cfg : Opendate.Config) (fuel : Nat) (ns rest) (st : Opendate.HState),
      ns.length ≤ 2 → st.res.tzoffset = none → st.res.tzname = none →
      Opendate.hloop cfg (fuel + 1)
          (.letters ['G', 'M', 'T'] :: .sep '+' :: .digits ns :: rest) st =
        Opendate.hloop cfg fuel rest
          { st with res := { st.res with
              tzoffset := some (-Int.ofNat (Opendate.digitsVal ns * 3600)),
              tzname := some "GMT" } }) ∧
    (∀ (cfg : Opendate.Config) (fuel : Nat) (ns rest) (st : Opendate.HState),
      ns.length ≤ 2 → st.res.tzoffset = none → st.res.tzname = none →
      Opendate.hloop cfg (fuel + 1)
          (.letters ['G', 'M', 'T'] :: .sep '-' :: .digits ns :: rest) st =
        Opendate.hloop cfg fuel rest
          { st with res := { st.res with
              tzoffset := some (Int.ofNat (Opendate.digitsVal ns * 3600)),
              tzname := some "GMT" } }) ∧
    (Opendate.parse {} "2024-01-15 10:30:00 GMT+3").map
        Opendate.ParseResult.tzoffset = .ok (some (-10800)) ∧
    (Opendate.parse {} "2024-01-15 10:30:00 GMT-5").map
        Opendate.ParseResult.tzoffset = .ok (some 18000) ∧
    (Opendate.parse {} "2024-01-15 10:30:00 UTC").map
        Opendate.ParseResult.tzoffset = .ok (some 0) ∧
    (Opendate.parse {} "2024-01-15 10:30:00 GMT").map
        Opendate.ParseResult.tzoffset = .ok (some 0) := by
  refine ⟨?_, ?_, rfl, rfl, rfl, rfl⟩ <;>
    · intro cfg fuel ns rest st hns h1 h2
      simp [Opendate.hloop, hns, Opendate.setTz, Opendate.setOnce, h1, h2,
        Opendate.gmtNamedOffset, bind, Except.bind, pure, Except.pure]

/-- C5 witness: the `GMT+N` step instantiated with N = 3 at the start
of the pass, then run to completion on the remaining empty stream. -/
theorem gmt_sign_reversal_witness :
    Opendate.hloop {} 1 (.letters ['G', 'M', 'T'] :: .sep '+' ::
        .digits ['3'] :: []) {} =
      Opendate.hloop {} 0 []
        { res := { tzoffset := some (-Int.ofNat (Opendate.digitsVal ['3'] * 3600)),
                   tzname := some "GMT" } } :=
  gmt_sign_reversal.1 {} 0 ['3'] [] {} (by decide) rfl rfl

/-- C8: a token attributable to no date/time component fails the parse
in non-fuzzy mode and is appended to the skip list in fuzzy mode, for
letter runs and over-long digit runs alike; end to end,
`Order #12345 placed on 2024-01-15` errors without fuzzy, resolves to
2024-01-15 with fuzzy, and with tokens returns the pair whose ordered
skip list contains `12345`. -/
theorem fuzzy_skips_unattributable_tokens :
    (∀ (cfg : Opendate.Config) (st : Opendate.HState) (s : List Char),
      s.map Char.toLower ∉
        ([['a', 'm'], ['p', 'm'], ['u', 't', 'c'], ['z'], ['g', 'm', 't'],
          ['t']] : List (List Char)) →
      (cfg.fuzzy = true →
        Opendate.consumeLetters cfg st s =
          .ok { st with skipped := st.skipped ++ [s] }) ∧
      (cfg.fuzzy = false →
        Opendate.consumeLetters cfg st s = .error .unrecognizedToken)) ∧
    (∀ (cfg : Opendate.Config) (st : Opendate.HState) (ds : List Char),
      4 < ds.length → ds.length ≠ 6 → ds.length ≠ 8 →
      (cfg.fuzzy = true →
        Opendate.consumeBareDigits cfg st ds =
          .ok { st with skipped := st.skipped ++ [ds] }) ∧
      (cfg.fuzzy = false →
        Opendate.consumeBareDigits cfg st ds = .error .unrecognizedToken)) ∧
    Opendate.parse {} "Order #12345 placed on 2024-01-15" =
      .error .unrecognizedToken ∧
    Opendate.parse { fuzzy := true } "Order #12345 placed on 2024-01-15" =
      .ok { year := some 2024, month := some 1, day := some 15 } ∧
    Opendate.parse_fuzzy_with_tokens {} "Order #12345 placed on 2024-01-15" =
      .ok ({ year := some 2024, month := some 1, day := some 15 },
        ["Order".data, "12345".data, "placed".data, "on".data]) ∧
    "12345".data ∈
      ["Order".data, "12345".data, "placed".data, "on".data] := by
  refine ⟨?_, ?_, rfl, rfl, rfl, by decide⟩
  · intro cfg st s hs
    simp only [List.mem_cons, List.not_mem_nil, or_false, not_or] at hs
    obtain ⟨n1, n2, n3, n4, n5, n6⟩ := hs
    constructor <;> intro hf <;>
      simp [Opendate.consumeLetters, n1, n2, n3, n4, n5, n6, hf]
  · intro cfg st ds h4 h6 h8
    constructor <;> intro hf <;>
      · rw [Opendate.consumeBareDigits, if_neg (by omega), if_neg h6,
          if_neg h8, hf]
        simp

/-- C8 witness: the letter-run step on `placed` (fuzzy appends it to
the skip list, non-fuzzy fails) at a concrete state. -/
theorem fuzzy_skips_unattributable_tokens_witness :
    (Opendate.consumeLetters { fuzzy := true } {} "placed".data =
      .ok { skipped := ["placed".data] }) ∧
    (Opendate.consumeLetters {} {} "placed".data =
      .error .unrecognizedToken) :=
  ⟨(fuzzy_skips_unattributable_tokens.1 { fuzzy := true } {} "placed".data
      (by decide)).1 rfl,
   (fuzzy_skips_unattributable_tokens.1 {} {} "placed".data
      (by decide)).2 rfl⟩

/-- C7: the strict time resolver accepts exactly a time production
followed by whitespace: `14:30 ` and a tab-terminated `14:30:45` are
accepted, while the 5-digit `09301`, `14:30extra`, and the AM/PM forms
`0930 pm` and `09:30am` are rejected. -/
theorem isotime_trailing_content :
    (∀ (cs : List Char) (r : Opendate.ParseResult),
      Opendate.parse_isotimeChars cs = .ok r ↔
        ∃ rest, Opendate.parseIsoTimeTz cs = .ok (r, rest) ∧
          Opendate.onlyWs rest = true) ∧
    Opendate.parse_isotime "14:30 " =
      .ok { hour := some 14, minute := some 30 } ∧
    Opendate.parse_isotime "14:30:45\t" =
      .ok { hour := some 14, minute := some 30, second := some 45 } ∧
    Opendate.parse_isotime "09301" = .error .malformedIsoGrammar ∧
    Opendate.parse_isotime "14:30extra" = .error .malformedIsoGrammar ∧
    Opendate.parse_isotime "0930 pm" = .error .malformedIsoGrammar ∧
    Opendate.parse_isotime "09:30am" = .error .malformedIsoGrammar := by
  refine ⟨?_, rfl, rfl, rfl, rfl, rfl, rfl⟩
  intro cs r
  unfold Opendate.parse_isotimeChars
  rcases hp : Opendate.parseIsoTimeTz cs with e | ⟨r', rest'⟩
  · simp
  · by_cases hw : Opendate.onlyWs rest' = true
    all_goals simp [hw]
    all_goals try aesop

/-- C7 witness: the acceptance characterization instantiated on the
input `14:30 `, whose production remainder is the single space. -/
theorem isotime_trailing_content_witness :
    Opendate.parse_isotimeChars "14:30 ".data =
        .ok { hour := some 14, minute := some 30 } ↔
      ∃ rest, Opendate.parseIsoTimeTz "14:30 ".data =
          .ok ({ hour := some 14, minute := some 30 }, rest) ∧
        Opendate.onlyWs rest = true :=
  isotime_trailing_content.1 "14:30 ".data
    { hour := some 14, minute := some 30 }

namespace Opendate

/-! ## Round-trip lemmas (§8) -/

theorem parseIsoDate_serialized (y mo d : Nat) (r : List Char)
    (hy : y < 10000) (hmo1 : 1 ≤ mo) (hmo2 : mo ≤ 12)
    (hd1 : 1 ≤ d) (hd2 : d ≤ 31)
    (hr : r = [] ∨ ∃ c r', r = c :: r' ∧ isDigitC c = false) :
    parseIsoDate (serializeDate y mo d ++ r) = .ok ((y, mo, d), r) := by
  have e0 : serializeDate y mo d ++ r =
      pad4 y ++ '-' :: (pad2 mo ++ '-' :: (pad2 d ++ r)) := by
    simp [serializeDate]
  have h1 : takeDigits (pad4 y ++ '-' :: (pad2 mo ++ '-' :: (pad2 d ++ r))) =
      (pad4 y, '-' :: (pad2 mo ++ '-' :: (pad2 d ++ r))) :=
    takeDigits_append _ _ (pad4_all_digits y) (Or.inr ⟨_, _, rfl, by decide⟩)
  have h2 : takeDigits (pad2 mo ++ '-' :: (pad2 d ++ r)) =
      (pad2 mo, '-' :: (pad2 d ++ r)) :=
    takeDigits_append _ _ (pad2_all_digits mo) (Or.inr ⟨_, _, rfl, by decide⟩)
  have h3 : takeDigits (pad2 d ++ r) = (pad2 d, r) :=
    takeDigits_append _ _ (pad2_all_digits d) hr
  rw [e0]
  simp only [parseIsoDate, h1, h2, h3, length_pad4, length_pad2,
    digitsVal_pad4 hy, digitsVal_pad2 (show mo < 100 by omega),
    digitsVal_pad2 (show d < 100 by omega), hmo1, hmo2, hd1, hd2,
    and_self, if_true, if_pos, true_and, and_true]

end Opendate

namespace Opendate

/-! ## Parser-output invariants -/

/-- Every character of a leading digit run is a digit. -/
theorem takeDigits_digits (cs : List Char) :
    ∀ c ∈ (takeDigits cs).1, isDigitC c = true := by
  induction cs with
  | nil => simp [takeDigits]
  | cons c t ih =>
    by_cases hc : isDigitC c = true
    · rw [takeDigits_cons_digit hc]
      intro x hx
      rcases List.mem_cons.mp hx with rfl | hx
      · exact hc
      · exact ih x hx
    · rw [takeDigits_cons_nondigit (by simpa using hc)]
      simp

/-- A normalized fraction always fits in six digits. -/
theorem microsecondOfFraction_lt (ds : List Char)
    (hd : ∀ c ∈ ds, isDigitC c = true) :
    microsecondOfFraction ds < 1000000 := by
  rw [microsecondOfFraction_take ds hd]
  have htake : ∀ c ∈ ds.take 6, isDigitC c = true :=
    fun c hc => hd c (List.mem_of_mem_take hc)
  have hlt := digitsVal_lt_pow _ htake
  have hlen : (ds.take 6).length = min ds.length 6 := by
    simp [List.length_take, Nat.min_comm]
  rw [hlen] at hlt
  calc digitsVal (ds.take 6) * 10 ^ (6 - min ds.length 6)
      < 10 ^ min ds.length 6 * 10 ^ (6 - min ds.length 6) := by
        exact mul_lt_mul_of_pos_right hlt (by positivity)
    _ = 10 ^ (min ds.length 6 + (6 - min ds.length 6)) := by rw [pow_add]
    _ = 10 ^ 6 := by congr 1; omega

/-- The civil conversion always produces a month 1-12 and a day 1-31. -/
theorem civilFromDays_range (z : Nat) :
    1 ≤ (civilFromDays z).2.1 ∧ (civilFromDays z).2.1 ≤ 12 ∧
      1 ≤ (civilFromDays z).2.2 ∧ (civilFromDays z).2.2 ≤ 31 := by
  unfold civilFromDays
  dsimp only
  split_ifs <;> omega

end Opendate

namespace Opendate

/-! ## Result serialization (§8 round-trip) -/

/-- Numeric offset designator `±HH:MM` of a signed-seconds offset. -/
def serializeTz (off : Int) : List Char :=
  (if off < 0 then '-' else '+') ::
    (pad2 (off.natAbs / 3600) ++ ':' :: pad2 (off.natAbs % 3600 / 60))

/-- Timezone designator of a result: `Z` for the UTC-named zero offset,
`±HH:MM` for a numeric offset, nothing when no offset is set. -/
def tzDesignator (tzo : Option Int) (tzn : Option String) : List Char :=
  match tzo with
  | none => []
  | some off => if tzn = some "UTC" then ['Z'] else serializeTz off

/-- Optional `:MM(:SS(.ffffff))` tail of a serialized time, continued by
the timezone designator `tzL`. -/
def timeTail (mi s us : Option Nat) (tzL : List Char) : List Char :=
  match mi with
  | none => tzL
  | some m => ':' :: (pad2 m ++
      (match s with
       | none => tzL
       | some sv => ':' :: (pad2 sv ++
           (match us with
            | none => tzL
            | some u => '.' :: (pad6 u ++ tzL)))))

/-- Time-of-day and timezone part of a serialized result (empty when no
hour is set). -/
def serializeTimePart (r : ParseResult) : List Char :=
  match r.hour with
  | none => []
  | some h =>
    pad2 h ++ timeTail r.minute r.second r.microsecond
      (tzDesignator r.tzoffset r.tzname)

/-- Re-serialize the set components of a result with the grammar's
separators and zero-padding: the date part when the date is set, the
configured separator when both date and time are set, then the time and
timezone part. -/
def serializeResult (sep : Char) (r : ParseResult) : List Char :=
  (match r.year, r.month, r.day with
   | some y, some mo, some d =>
     serializeDate y mo d ++
       (match r.hour with | some _ => [sep] | none => [])
   | _, _, _ => []) ++ serializeTimePart r

/-- Shape of the time fields of a strict-resolver result that carries a
time: minute, second and microsecond form a left-to-right chain of set
fields, each in range. -/
def timeShapeC (h : Nat) (mi s us : Option Nat) : Prop :=
  match mi, s, us with
  | none, none, none => h ≤ 23
  | some m, none, none => h ≤ 23 ∧ m ≤ 59
  | some m, some sv, none => h ≤ 23 ∧ m ≤ 59 ∧ sv ≤ 59
  | some m, some sv, some u => h ≤ 23 ∧ m ≤ 59 ∧ sv ≤ 59 ∧ u < 1000000
  | _, _, _ => False

/-- Shape of the timezone fields of a strict-resolver result: nothing,
the UTC-named zero offset produced by `Z`, or a nameless numeric offset
built from a two-digit hour and a minute 0-59. -/
def tzShapeC (tzo : Option Int) (tzn : Option String) : Prop :=
  match tzo, tzn with
  | none, none => True
  | some off, some n => off = 0 ∧ n = "UTC"
  | some off, none =>
    ∃ M : Nat, M ≤ 359940 ∧ M % 60 = 0 ∧
      (off = (M : Int) ∨ off = -(M : Int))
  | none, some _ => False

/-- Heads a serialized timezone designator can have: nothing, or a
character that is neither a digit nor one of the time continuations. -/
def tzHeadOk (l : List Char) : Prop :=
  l = [] ∨ ∃ c r', l = c :: r' ∧ isDigitC c = false ∧ c ≠ ':' ∧
    c ≠ '.' ∧ c ≠ ','

theorem tzHeadOk_designator (tzo : Option Int) (tzn : Option String) :
    tzHeadOk (tzDesignator tzo tzn) := by
  cases tzo with
  | none => exact Or.inl rfl
  | some off =>
    simp only [tzDesignator, serializeTz]
    split_ifs
    · exact Or.inr ⟨'Z', [], rfl, by decide, by decide, by decide, by decide⟩
    · exact Or.inr ⟨'-', _, rfl, by decide, by decide, by decide, by decide⟩
    · exact Or.inr ⟨'+', _, rfl, by decide, by decide, by decide, by decide⟩

end Opendate

namespace Opendate

theorem tzHeadOk_nondigit {l : List Char} (ht : tzHeadOk l) :
    l = [] ∨ ∃ c r', l = c :: r' ∧ isDigitC c = false := by
  rcases ht with rfl | ⟨c, r', rfl, hd, _⟩
  · exact Or.inl rfl
  · exact Or.inr ⟨c, r', rfl, hd⟩

theorem parseFracTail_tzHead (l : List Char) (ht : tzHeadOk l) :
    parseFracTail l = .ok (none, l) := by
  rcases ht with rfl | ⟨c, r', rfl, hd, hc1, hc2, hc3⟩
  · rfl
  · simp [parseFracTail, hc2, hc3]

theorem parseIsoTimeCore_h (h : Nat) (tzL : List Char) (hh : h < 100)
    (ht : tzHeadOk tzL) :
    parseIsoTimeCore (pad2 h ++ tzL) = .ok ((h, none, none, none), tzL) := by
  rcases ht with rfl | ⟨c, r', rfl, hd, hc1, hc2, hc3⟩
  · have h1 : takeDigits (pad2 h) = (pad2 h, []) := by
      simpa using takeDigits_append (pad2 h) [] (pad2_all_digits h) (Or.inl rfl)
    simp [parseIsoTimeCore, h1, length_pad2, digitsVal_pad2 hh]
  · have h1 : takeDigits (pad2 h ++ c :: r') = (pad2 h, c :: r') :=
      takeDigits_append _ _ (pad2_all_digits h) (Or.inr ⟨_, _, rfl, hd⟩)
    simp [parseIsoTimeCore, h1, length_pad2, digitsVal_pad2 hh, hc1]

theorem parseIsoTimeCore_hm (h mi : Nat) (tzL : List Char) (hh : h < 100)
    (hmi : mi < 100) (ht : tzHeadOk tzL) :
    parseIsoTimeCore (pad2 h ++ ':' :: (pad2 mi ++ tzL)) =
      .ok ((h, some mi, none, none), tzL) := by
  rcases ht with rfl | ⟨c, r', rfl, hd, hc1, hc2, hc3⟩
  · have h1 : takeDigits (pad2 h ++ ':' :: pad2 mi) =
        (pad2 h, ':' :: pad2 mi) :=
      takeDigits_append _ _ (pad2_all_digits h) (Or.inr ⟨_, _, rfl, by decide⟩)
    have h2 : takeDigits (pad2 mi) = (pad2 mi, []) := by
      simpa using takeDigits_append (pad2 mi) [] (pad2_all_digits mi) (Or.inl rfl)
    simp [parseIsoTimeCore, h1, h2, length_pad2, digitsVal_pad2 hh,
      digitsVal_pad2 hmi]
  · have h1 : takeDigits (pad2 h ++ ':' :: (pad2 mi ++ c :: r')) =
        (pad2 h, ':' :: (pad2 mi ++ c :: r')) :=
      takeDigits_append _ _ (pad2_all_digits h) (Or.inr ⟨_, _, rfl, by decide⟩)
    have h2 : takeDigits (pad2 mi ++ c :: r') = (pad2 mi, c :: r') :=
      takeDigits_append _ _ (pad2_all_digits mi) (Or.inr ⟨_, _, rfl, hd⟩)
    simp [parseIsoTimeCore, h1, h2, length_pad2, digitsVal_pad2 hh,
      digitsVal_pad2 hmi, hc1]

theorem parseIsoTimeCore_hms (h mi s : Nat) (tzL : List Char)
    (hh : h < 100) (hmi : mi < 100) (hs : s < 100) (ht : tzHeadOk tzL) :
    parseIsoTimeCore (pad2 h ++ ':' :: (pad2 mi ++ ':' :: (pad2 s ++ tzL))) =
      .ok ((h, some mi, some s, none), tzL) := by
  have h4 := parseFracTail_tzHead tzL ht
  rcases ht with rfl | ⟨c, r', rfl, hd, hc1, hc2, hc3⟩
  · have h1 : takeDigits (pad2 h ++ ':' :: (pad2 mi ++ ':' :: pad2 s)) =
        (pad2 h, ':' :: (pad2 mi ++ ':' :: pad2 s)) :=
      takeDigits_append _ _ (pad2_all_digits h) (Or.inr ⟨_, _, rfl, by decide⟩)
    have h2 : takeDigits (pad2 mi ++ ':' :: pad2 s) =
        (pad2 mi, ':' :: pad2 s) :=
      takeDigits_append _ _ (pad2_all_digits mi) (Or.inr ⟨_, _, rfl, by decide⟩)
    have h3 : takeDigits (pad2 s) = (pad2 s, []) := by
      simpa using takeDigits_append (pad2 s) [] (pad2_all_digits s) (Or.inl rfl)
    simp [parseIsoTimeCore, h1, h2, h3, h4, length_pad2, digitsVal_pad2 hh,
      digitsVal_pad2 hmi, digitsVal_pad2 hs]
  · have h1 : takeDigits (pad2 h ++ ':' :: (pad2 mi ++ ':' ::
        (pad2 s ++ c :: r'))) =
        (pad2 h, ':' :: (pad2 mi ++ ':' :: (pad2 s ++ c :: r'))) :=
      takeDigits_append _ _ (pad2_all_digits h) (Or.inr ⟨_, _, rfl, by decide⟩)
    have h2 : takeDigits (pad2 mi ++ ':' :: (pad2 s ++ c :: r')) =
        (pad2 mi, ':' :: (pad2 s ++ c :: r')) :=
      takeDigits_append _ _ (pad2_all_digits mi) (Or.inr ⟨_, _, rfl, by decide⟩)
    have h3 : takeDigits (pad2 s ++ c :: r') = (pad2 s, c :: r') :=
      takeDigits_append _ _ (pad2_all_digits s) (Or.inr ⟨_, _, rfl, hd⟩)
    simp [parseIsoTimeCore, h1, h2, h3, h4, length_pad2, digitsVal_pad2 hh,
      digitsVal_pad2 hmi, digitsVal_pad2 hs]

theorem parseIsoTimeCore_hmsu (h mi s u : Nat) (tzL : List Char)
    (hh : h < 100) (hmi : mi < 100) (hs : s < 100) (hu : u < 1000000)
    (ht : tzHeadOk tzL) :
    parseIsoTimeCore (pad2 h ++ ':' :: (pad2 mi ++ ':' ::
        (pad2 s ++ '.' :: (pad6 u ++ tzL)))) =
      .ok ((h, some mi, some s, some u), tzL) := by
  have h5 : microsecondOfFraction (pad6 u) = u := by
    simp [microsecondOfFraction, length_pad6, digitsVal_pad6 hu]
  rcases ht with rfl | ⟨c, r', rfl, hd, hc1, hc2, hc3⟩
  · have h1 : takeDigits (pad2 h ++ ':' :: (pad2 mi ++ ':' ::
        (pad2 s ++ '.' :: pad6 u))) =
        (pad2 h, ':' :: (pad2 mi ++ ':' :: (pad2 s ++ '.' :: pad6 u))) :=
      takeDigits_append _ _ (pad2_all_digits h) (Or.inr ⟨_, _, rfl, by decide⟩)
    have h2 : takeDigits (pad2 mi ++ ':' :: (pad2 s ++ '.' :: pad6 u)) =
        (pad2 mi, ':' :: (pad2 s ++ '.' :: pad6 u)) :=
      takeDigits_append _ _ (pad2_all_digits mi) (Or.inr ⟨_, _, rfl, by decide⟩)
    have h3 : takeDigits (pad2 s ++ '.' :: pad6 u) =
        (pad2 s, '.' :: pad6 u) :=
      takeDigits_append _ _ (pad2_all_digits s) (Or.inr ⟨_, _, rfl, by decide⟩)
    have h4 : takeDigits (pad6 u) = (pad6 u, []) := by
      simpa using takeDigits_append (pad6 u) [] (pad6_all_digits u) (Or.inl rfl)
    simp [parseIsoTimeCore, parseFracTail, h1, h2, h3, h4, h5, length_pad2,
      length_pad6, digitsVal_pad2 hh, digitsVal_pad2 hmi, digitsVal_pad2 hs]
  · have h1 : takeDigits (pad2 h ++ ':' :: (pad2 mi ++ ':' ::
        (pad2 s ++ '.' :: (pad6 u ++ c :: r')))) =
        (pad2 h, ':' :: (pad2 mi ++ ':' :: (pad2 s ++ '.' ::
          (pad6 u ++ c :: r')))) :=
      takeDigits_append _ _ (pad2_all_digits h) (Or.inr ⟨_, _, rfl, by decide⟩)
    have h2 : takeDigits (pad2 mi ++ ':' :: (pad2 s ++ '.' ::
        (pad6 u ++ c :: r'))) =
        (pad2 mi, ':' :: (pad2 s ++ '.' :: (pad6 u ++ c :: r'))) :=
      takeDigits_append _ _ (pad2_all_digits mi) (Or.inr ⟨_, _, rfl, by decide⟩)
    have h3 : takeDigits (pad2 s ++ '.' :: (pad6 u ++ c :: r')) =
        (pad2 s, '.' :: (pad6 u ++ c :: r')) :=
      takeDigits_append _ _ (pad2_all_digits s) (Or.inr ⟨_, _, rfl, by decide⟩)
    have h4 : takeDigits (pad6 u ++ c :: r') = (pad6 u, c :: r') :=
      takeDigits_append _ _ (pad6_all_digits u) (Or.inr ⟨_, _, rfl, hd⟩)
    simp [parseIsoTimeCore, parseFracTail, h1, h2, h3, h4, h5, length_pad2,
      length_pad6, digitsVal_pad2 hh, digitsVal_pad2 hmi, digitsVal_pad2 hs]

end Opendate

namespace Opendate

theorem parseOffsetTail_serialized (neg : Bool) (a b : Nat)
    (ha : a < 100) (hb : b ≤ 59) :
    parseOffsetTail neg (pad2 a ++ ':' :: pad2 b) =
      .ok (signedOffset neg a b, []) := by
  have h1 : takeDigits (pad2 a ++ ':' :: pad2 b) = (pad2 a, ':' :: pad2 b) :=
    takeDigits_append _ _ (pad2_all_digits a) (Or.inr ⟨_, _, rfl, by decide⟩)
  have h2 : takeDigits (pad2 b) = (pad2 b, []) := by
    simpa using takeDigits_append (pad2 b) [] (pad2_all_digits b) (Or.inl rfl)
  simp [parseOffsetTail, h1, h2, length_pad2, digitsVal_pad2 ha,
    digitsVal_pad2 (show b < 100 by omega), hb]

theorem parseIsoTz_serializeTz (off : Int) (M : Nat) (hM : M ≤ 359940)
    (h60 : M % 60 = 0) (hoff : off = (M : Int) ∨ off = -(M : Int)) :
    parseIsoTz (serializeTz off) = .ok (some off, none, []) := by
  have ha : M / 3600 < 100 := by omega
  have hb : M % 3600 / 60 ≤ 59 := by omega
  have hM' : M / 3600 * 3600 + M % 3600 / 60 * 60 = M := by omega
  rcases hoff with rfl | rfl
  · have hneg : ¬((M : Int) < 0) := by omega
    have hnat : ((M : Int)).natAbs = M := Int.natAbs_ofNat M
    simp only [serializeTz, hnat, if_neg hneg]
    simp [parseIsoTz, parseOffsetTail_serialized false _ _ ha hb,
      signedOffset, hM']
  · by_cases hM0 : M = 0
    · subst hM0
      have : (-(0 : Int)) = (0 : Int) := by norm_num
      rw [show -((0 : Nat) : Int) = ((0 : Nat) : Int) by norm_num]
      have hneg : ¬(((0 : Nat) : Int) < 0) := by omega
      have hnat : (((0 : Nat) : Int)).natAbs = 0 := rfl
      simp only [serializeTz, hnat, if_neg hneg]
      simp [parseIsoTz, parseOffsetTail_serialized false _ _
        (show (0 : Nat) / 3600 < 100 by omega)
        (show (0 : Nat) % 3600 / 60 ≤ 59 by omega), signedOffset]
    · have hneg : (-(M : Int)) < 0 := by omega
      have hnat : (-(M : Int)).natAbs = M := by
        simp [Int.natAbs_neg]
      simp only [serializeTz, hnat, if_pos hneg]
      simp [parseIsoTz, parseOffsetTail_serialized true _ _ ha hb,
      signedOffset, hM']

theorem parseIsoTz_designator (tzo : Option Int) (tzn : Option String)
    (htz : tzShapeC tzo tzn) :
    parseIsoTz (tzDesignator tzo tzn) = .ok (tzo, tzn, []) := by
  cases tzo with
  | none =>
    cases tzn with
    | none => rfl
    | some n => exact absurd htz (by simp [tzShapeC])
  | some off =>
    cases tzn with
    | some n =>
      obtain ⟨h0, hn⟩ := htz
      subst h0
      subst hn
      rfl
    | none =>
      obtain ⟨M, hM, h60, hoff⟩ := htz
      have hd : tzDesignator (some off) none = serializeTz off := by
        simp [tzDesignator]
      rw [hd]
      exact parseIsoTz_serializeTz off M hM h60 hoff

end Opendate

namespace Opendate

theorem parseIsoTimeTz_reparse (h : Nat) (mi s us : Option Nat)
    (tzo : Option Int) (tzn : Option String)
    (hts : timeShapeC h mi s us) (htz : tzShapeC tzo tzn) :
    parseIsoTimeTz (pad2 h ++ timeTail mi s us (tzDesignator tzo tzn)) =
      .ok ({ hour := some h, minute := mi, second := s, microsecond := us,
             tzoffset := tzo, tzname := tzn }, []) := by
  have ht := tzHeadOk_designator tzo tzn
  have htzp := parseIsoTz_designator tzo tzn htz
  cases mi with
  | none =>
    cases s with
    | none =>
      cases us with
      | none =>
        have hh : h ≤ 23 := hts
        have hcore := parseIsoTimeCore_h h _ (by omega) ht
        have hval : validTime h none none = true := by simp [validTime, hh]
        simp [parseIsoTimeTz, timeTail, hcore, hval, htzp]
      | some u => exact absurd hts (by simp [timeShapeC])
    | some sv => exact absurd hts (by simp [timeShapeC])
  | some m =>
    cases s with
    | none =>
      cases us with
      | none =>
        obtain ⟨hh, hm⟩ := hts
        have hcore := parseIsoTimeCore_hm h m _ (by omega) (by omega) ht
        have hval : validTime h (some m) none = true := by
          simp [validTime, hh, hm]
        simp [parseIsoTimeTz, timeTail, hcore, hval, htzp]
      | some u => exact absurd hts (by simp [timeShapeC])
    | some sv =>
      cases us with
      | none =>
        obtain ⟨hh, hm, hsv⟩ := hts
        have hcore :=
          parseIsoTimeCore_hms h m sv _ (by omega) (by omega) (by omega) ht
        have hval : validTime h (some m) (some sv) = true := by
          simp [validTime, hh, hm, hsv]
        simp [parseIsoTimeTz, timeTail, hcore, hval, htzp]
      | some u =>
        obtain ⟨hh, hm, hsv, hu⟩ := hts
        have hcore := parseIsoTimeCore_hmsu h m sv u _ (by omega) (by omega)
          (by omega) hu ht
        have hval : validTime h (some m) (some sv) = true := by
          simp [validTime, hh, hm, hsv]
        simp [parseIsoTimeTz, timeTail, hcore, hval, htzp]

theorem parse_isotimeChars_reparse (h : Nat) (mi s us : Option Nat)
    (tzo : Option Int) (tzn : Option String)
    (hts : timeShapeC h mi s us) (htz : tzShapeC tzo tzn) :
    parse_isotimeChars (pad2 h ++ timeTail mi s us (tzDesignator tzo tzn)) =
      .ok { hour := some h, minute := mi, second := s, microsecond := us,
            tzoffset := tzo, tzname := tzn } := by
  simp [parse_isotimeChars, parseIsoTimeTz_reparse h mi s us tzo tzn hts htz,
    onlyWs]

theorem isoparse_reparse_datetime (y mo d h : Nat) (mi s us : Option Nat)
    (tzo : Option Int) (tzn : Option String)
    (hy : y < 10000) (hmo1 : 1 ≤ mo) (hmo2 : mo ≤ 12)
    (hd1 : 1 ≤ d) (hd2 : d ≤ 31)
    (hts : timeShapeC h mi s us) (htz : tzShapeC tzo tzn) :
    isoparseSepChars 'T' (serializeDate y mo d ++ 'T' ::
        (pad2 h ++ timeTail mi s us (tzDesignator tzo tzn))) =
      .ok { year := some y, month := some mo, day := some d,
            hour := some h, minute := mi, second := s, microsecond := us,
            tzoffset := tzo, tzname := tzn } := by
  have hdate := parseIsoDate_serialized y mo d
    ('T' :: (pad2 h ++ timeTail mi s us (tzDesignator tzo tzn)))
    hy hmo1 hmo2 hd1 hd2 (Or.inr ⟨_, _, rfl, by decide⟩)
  simp [isoparseSepChars, hdate,
    parseIsoTimeTz_reparse h mi s us tzo tzn hts htz, onlyWs]

theorem isoparse_reparse_date (y mo d : Nat)
    (hy : y < 10000) (hmo1 : 1 ≤ mo) (hmo2 : mo ≤ 12)
    (hd1 : 1 ≤ d) (hd2 : d ≤ 31) :
    isoparseSepChars 'T' (serializeDate y mo d) =
      .ok { year := some y, month := some mo, day := some d } := by
  have hdate := parseIsoDate_serialized y mo d [] hy hmo1 hmo2 hd1 hd2
    (Or.inl rfl)
  rw [List.append_nil] at hdate
  simp only [isoparseSepChars, hdate]

end Opendate

namespace Opendate

theorem digitsVal_run_lt (cs : List Char) :
    digitsVal (takeDigits cs).1 < 10 ^ (takeDigits cs).1.length :=
  digitsVal_lt_pow _ (takeDigits_digits cs)

theorem parseFracTail_shape {cs rest : List Char} {us : Option Nat}
    (hp : parseFracTail cs = .ok (us, rest)) :
    us = none ∨ ∃ u, us = some u ∧ u < 1000000 := by
  unfold parseFracTail at hp
  split at hp
  · simp only [Except.ok.injEq, Prod.mk.injEq] at hp
    exact Or.inl hp.1.symm
  · rename_i c r
    split at hp
    · split at hp
      · simp only [Except.ok.injEq, Prod.mk.injEq] at hp
        exact Or.inr ⟨_, hp.1.symm,
          microsecondOfFraction_lt _ (takeDigits_digits r)⟩
      · simp at hp
    · simp only [Except.ok.injEq, Prod.mk.injEq] at hp
      exact Or.inl hp.1.symm

end Opendate

namespace Opendate

theorem parseOffsetTail_shape {neg : Bool} {cs rest : List Char} {off : Int}
    (hp : parseOffsetTail neg cs = .ok (off, rest)) :
    ∃ M : Nat, M ≤ 359940 ∧ M % 60 = 0 ∧
      (off = (M : Int) ∨ off = -(M : Int)) := by
  have hds := digitsVal_run_lt cs
  have hsig : ∀ a b : Nat, signedOffset neg a b = off →
      off = ((a * 3600 + b * 60 : Nat) : Int) ∨
        off = -((a * 3600 + b * 60 : Nat) : Int) := by
    intro a b hh
    cases neg <;> simp [signedOffset] at hh <;> simp [← hh]
  unfold parseOffsetTail at hp
  split at hp
  · rename_i hlen2
    rw [hlen2] at hds
    split at hp
    · rename_i c r2 heq2
      split at hp
      · split at hp
        · rename_i hmlen
          split at hp
          · rename_i hm59
            simp only [Except.ok.injEq, Prod.mk.injEq] at hp
            exact ⟨digitsVal (takeDigits cs).1 * 3600 +
              digitsVal (takeDigits r2).1 * 60, by omega, by omega,
              hsig _ _ hp.1⟩
          · simp at hp
        · simp at hp
      · simp only [Except.ok.injEq, Prod.mk.injEq] at hp
        exact ⟨digitsVal (takeDigits cs).1 * 3600 + 0 * 60, by omega,
          by omega, hsig _ _ hp.1⟩
    · simp only [Except.ok.injEq, Prod.mk.injEq] at hp
      exact ⟨digitsVal (takeDigits cs).1 * 3600 + 0 * 60, by omega,
        by omega, hsig _ _ hp.1⟩
  · split at hp
    · rename_i hlen4
      rw [hlen4] at hds
      split at hp
      · rename_i hm59
        simp only [Except.ok.injEq, Prod.mk.injEq] at hp
        exact ⟨digitsVal (takeDigits cs).1 / 100 * 3600 +
          digitsVal (takeDigits cs).1 % 100 * 60, by omega, by omega,
          hsig _ _ hp.1⟩
      · simp at hp
    · simp at hp

end Opendate

namespace Opendate

theorem parseIsoTz_shape {cs rest : List Char} {tzo : Option Int}
    {tzn : Option String}
    (hp : parseIsoTz cs = .ok (tzo, tzn, rest)) : tzShapeC tzo tzn := by
  unfold parseIsoTz at hp
  split at hp
  · simp only [Except.ok.injEq, Prod.mk.injEq] at hp
    obtain ⟨rfl, rfl, rfl⟩ := hp
    trivial
  · rename_i c r
    split at hp
    · simp only [Except.ok.injEq, Prod.mk.injEq] at hp
      obtain ⟨rfl, rfl, rfl⟩ := hp
      exact ⟨rfl, rfl⟩
    · split at hp
      · split at hp
        · rename_i off r2 heqo
          simp only [Except.ok.injEq, Prod.mk.injEq] at hp
          obtain ⟨rfl, rfl, rfl⟩ := hp
          exact parseOffsetTail_shape heqo
        · simp at hp
      · split at hp
        · split at hp
          · rename_i off r2 heqo
            simp only [Except.ok.injEq, Prod.mk.injEq] at hp
            obtain ⟨rfl, rfl, rfl⟩ := hp
            exact parseOffsetTail_shape heqo
          · simp at hp
        · simp only [Except.ok.injEq, Prod.mk.injEq] at hp
          obtain ⟨rfl, rfl, rfl⟩ := hp
          trivial

end Opendate

namespace Opendate

/-- Raw chain shape of the time components as produced by the core time
production, before range validation: later fields are set only when the
earlier ones are, and each comes from a bounded digit field. -/
def timeChainC (mi s us : Option Nat) : Prop :=
  match mi, s, us with
  | none, none, none => True
  | some m, none, none => m < 100
  | some m, some sv, none => m < 100 ∧ sv < 100
  | some m, some sv, some u => m < 100 ∧ sv < 100 ∧ u < 1000000
  | _, _, _ => False

end Opendate

namespace Opendate

theorem parseIsoTimeCore_shape {cs rest : List Char} {h : Nat}
    {mi s us : Option Nat}
    (hp : parseIsoTimeCore cs = .ok ((h, mi, s, us), rest)) :
    h < 100 ∧ timeChainC mi s us := by
  have hds := digitsVal_run_lt cs
  simp only [parseIsoTimeCore] at hp
  split at hp
  · rename_i hlen2
    rw [hlen2] at hds
    split at hp
    · rename_i c1 r2 heq1
      split at hp
      · split at hp
        · rename_i hmlen
          have hms : digitsVal (takeDigits r2).1 < 100 := by
            have hx := digitsVal_run_lt r2
            rw [hmlen] at hx
            simpa using hx
          split at hp
          · rename_i c2 r4 heq2
            split at hp
            · split at hp
              · rename_i hslen
                have hss : digitsVal (takeDigits r4).1 < 100 := by
                  have hx := digitsVal_run_lt r4
                  rw [hslen] at hx
                  simpa using hx
                split at hp
                · rename_i us' r6 heqf
                  simp only [Except.ok.injEq, Prod.mk.injEq] at hp
                  obtain ⟨⟨rfl, rfl, rfl, rfl⟩, rfl⟩ := hp
                  rcases parseFracTail_shape heqf with rfl | ⟨u, rfl, hu⟩
                  · exact ⟨by simpa using hds, hms, hss⟩
                  · exact ⟨by simpa using hds, hms, hss, hu⟩
                · simp at hp
              · simp at hp
            · simp only [Except.ok.injEq, Prod.mk.injEq] at hp
              obtain ⟨⟨rfl, rfl, rfl, rfl⟩, rfl⟩ := hp
              exact ⟨by simpa using hds, hms⟩
          · simp only [Except.ok.injEq, Prod.mk.injEq] at hp
            obtain ⟨⟨rfl, rfl, rfl, rfl⟩, rfl⟩ := hp
            exact ⟨by simpa using hds, hms⟩
        · simp at hp
      · simp only [Except.ok.injEq, Prod.mk.injEq] at hp
        obtain ⟨⟨rfl, rfl, rfl, rfl⟩, rfl⟩ := hp
        exact ⟨by simpa using hds, trivial⟩
    · simp only [Except.ok.injEq, Prod.mk.injEq] at hp
      obtain ⟨⟨rfl, rfl, rfl, rfl⟩, rfl⟩ := hp
      exact ⟨by simpa using hds, trivial⟩
  · split at hp
    · rename_i hlen4
      rw [hlen4] at hds
      simp only [Except.ok.injEq, Prod.mk.injEq] at hp
      obtain ⟨⟨rfl, rfl, rfl, rfl⟩, rfl⟩ := hp
      have h4 : digitsVal (takeDigits cs).1 < 10000 := by simpa using hds
      refine ⟨by omega, ?_⟩
      show digitsVal (takeDigits cs).1 % 100 < 100
      omega
    · split at hp
      · rename_i hlen6
        rw [hlen6] at hds
        have h6 : digitsVal (takeDigits cs).1 < 1000000 := by simpa using hds
        split at hp
        · rename_i us' r6 heqf
          simp only [Except.ok.injEq, Prod.mk.injEq] at hp
          obtain ⟨⟨rfl, rfl, rfl, rfl⟩, rfl⟩ := hp
          rcases parseFracTail_shape heqf with rfl | ⟨u, rfl, hu⟩
          · exact ⟨by omega, by omega, by omega⟩
          · exact ⟨by omega, ⟨by omega, by omega, hu⟩⟩
        · simp at hp
      · simp at hp

end Opendate

namespace Opendate

theorem parseIsoTimeTz_shape {cs rest : List Char} {r : ParseResult}
    (hp : parseIsoTimeTz cs = .ok (r, rest)) :
    ∃ h, r.hour = some h ∧ timeShapeC h r.minute r.second r.microsecond ∧
      tzShapeC r.tzoffset r.tzname ∧ r.year = none ∧ r.month = none ∧
      r.day = none ∧ r.weekday = none := by
  unfold parseIsoTimeTz at hp
  split at hp
  · simp at hp
  · rename_i h' mi' s' us' r1 heqc
    obtain ⟨hh100, hchain⟩ := parseIsoTimeCore_shape heqc
    split at hp
    · rename_i hval
      split at hp
      · simp at hp
      · rename_i off name r2 heq2
        have htz := parseIsoTz_shape heq2
        simp only [Except.ok.injEq, Prod.mk.injEq] at hp
        obtain ⟨rfl, rfl⟩ := hp
        have hts : timeShapeC h' mi' s' us' := by
          rcases mi' with _ | m <;> rcases s' with _ | sv <;>
            rcases us' with _ | u <;>
            simp_all [timeShapeC, timeChainC, validTime]
        exact ⟨h', rfl, hts, htz, rfl, rfl, rfl, rfl⟩
    · simp at hp

end Opendate

namespace Opendate

theorem finishWeekDate_shape {y w dd yy mm dd2 : Nat} {r0 rest : List Char}
    (hp : finishWeekDate y w dd r0 = .ok ((yy, mm, dd2), rest)) :
    1 ≤ mm ∧ mm ≤ 12 ∧ 1 ≤ dd2 ∧ dd2 ≤ 31 := by
  unfold finishWeekDate at hp
  split at hp
  · simp only [Except.ok.injEq, Prod.mk.injEq] at hp
    obtain ⟨heq3, -⟩ := hp
    unfold isoWeekToCivil at heq3
    have hr := civilFromDays_range (weekOneMonday y + 7 * (w - 1) + (dd - 1))
    rw [heq3] at hr
    simpa using hr
  · simp at hp

theorem finishOrdinalDate_shape {y doy yy mm dd2 : Nat} {r0 rest : List Char}
    (hp : finishOrdinalDate y doy r0 = .ok ((yy, mm, dd2), rest)) :
    1 ≤ mm ∧ mm ≤ 12 ∧ 1 ≤ dd2 ∧ dd2 ≤ 31 := by
  unfold finishOrdinalDate at hp
  split at hp
  · simp only [Except.ok.injEq, Prod.mk.injEq] at hp
    obtain ⟨heq3, -⟩ := hp
    have hr := civilFromDays_range (daysFromCivil y 1 1 + doy - 1)
    rw [heq3] at hr
    simpa using hr
  · simp at hp

theorem parseWeekTail_shape {y yy mm dd : Nat} {cs rest : List Char}
    (hp : parseWeekTail y cs = .ok ((yy, mm, dd), rest)) :
    1 ≤ mm ∧ mm ≤ 12 ∧ 1 ≤ dd ∧ dd ≤ 31 := by
  unfold parseWeekTail at hp
  split at hp
  · split at hp
    · rename_i c r2 heq
      split at hp
      · split at hp
        · exact finishWeekDate_shape hp
        · simp at hp
      · exact finishWeekDate_shape hp
    · exact finishWeekDate_shape hp
  · split at hp
    · exact finishWeekDate_shape hp
    · simp at hp

theorem parseIsoDate_shape {cs rest : List Char} {y mo d : Nat}
    (hp : parseIsoDate cs = .ok ((y, mo, d), rest)) :
    1 ≤ mo ∧ mo ≤ 12 ∧ 1 ≤ d ∧ d ≤ 31 := by
  simp only [parseIsoDate] at hp
  split at hp
  · split at hp
    · rename_i c1 r2 heq1
      split at hp
      · split at hp
        · rename_i hmlen
          split at hp
          · rename_i hmo
            split at hp
            · rename_i c3 r4 heq3
              split at hp
              · split at hp
                · rename_i hdlen
                  split at hp
                  · rename_i hd
                    simp only [Except.ok.injEq, Prod.mk.injEq] at hp
                    obtain ⟨⟨rfl, rfl, rfl⟩, rfl⟩ := hp
                    exact ⟨hmo.1, hmo.2, hd.1, hd.2⟩
                  · simp at hp
                · simp at hp
              · simp only [Except.ok.injEq, Prod.mk.injEq] at hp
                obtain ⟨⟨rfl, rfl, rfl⟩, rfl⟩ := hp
                exact ⟨hmo.1, hmo.2, by omega, by omega⟩
            · simp only [Except.ok.injEq, Prod.mk.injEq] at hp
              obtain ⟨⟨rfl, rfl, rfl⟩, rfl⟩ := hp
              exact ⟨hmo.1, hmo.2, by omega, by omega⟩
          · simp at hp
        · split at hp
          · exact finishOrdinalDate_shape hp
          · split at hp
            · rename_i c2 r4 heq2
              split at hp
              · exact parseWeekTail_shape hp
              · simp at hp
            · simp at hp
      · split at hp
        · exact parseWeekTail_shape hp
        · simp only [Except.ok.injEq, Prod.mk.injEq] at hp
          obtain ⟨⟨rfl, rfl, rfl⟩, rfl⟩ := hp
          exact ⟨by omega, by omega, by omega, by omega⟩
    · simp only [Except.ok.injEq, Prod.mk.injEq] at hp
      obtain ⟨⟨rfl, rfl, rfl⟩, rfl⟩ := hp
      exact ⟨by omega, by omega, by omega, by omega⟩
  · split at hp
    · rename_i hlen8
      split at hp
      · rename_i hok
        simp only [Except.ok.injEq, Prod.mk.injEq] at hp
        obtain ⟨⟨rfl, rfl, rfl⟩, rfl⟩ := hp
        exact ⟨hok.1, hok.2.1, hok.2.2.1, hok.2.2.2⟩
      · simp at hp
    · split at hp
      · exact finishOrdinalDate_shape hp
      · simp at hp

end Opendate

namespace Opendate

theorem isoparseSepChars_shape {sep : Char} {cs : List Char}
    {r : ParseResult} (hp : isoparseSepChars sep cs = .ok r) :
    ∃ y mo d, r.year = some y ∧ r.month = some mo ∧ r.day = some d ∧
      1 ≤ mo ∧ mo ≤ 12 ∧ 1 ≤ d ∧ d ≤ 31 ∧ r.weekday = none ∧
      ((r.hour = none ∧ r.minute = none ∧ r.second = none ∧
        r.microsecond = none ∧ r.tzoffset = none ∧ r.tzname = none) ∨
       (∃ h, r.hour = some h ∧
        timeShapeC h r.minute r.second r.microsecond ∧
        tzShapeC r.tzoffset r.tzname)) := by
  unfold isoparseSepChars at hp
  split at hp
  · simp at hp
  · rename_i y' mo' d' rest' heqd
    have hb := parseIsoDate_shape heqd
    split at hp
    · rename_i c r1 heqr
      split at hp
      · split at hp
        · simp at hp
        · rename_i t r2 heqt
          obtain ⟨h, hh, hts, htz, hyn, hmon, hdn, hwn⟩ :=
            parseIsoTimeTz_shape heqt
          split at hp
          · simp only [Except.ok.injEq] at hp
            subst hp
            refine ⟨y', mo', d', rfl, rfl, rfl, hb.1, hb.2.1, hb.2.2.1,
              hb.2.2.2, hwn, Or.inr ⟨h, hh, hts, htz⟩⟩
          · simp at hp
      · split at hp
        · simp only [Except.ok.injEq] at hp
          subst hp
          exact ⟨y', mo', d', rfl, rfl, rfl, hb.1, hb.2.1, hb.2.2.1,
            hb.2.2.2, rfl, Or.inl ⟨rfl, rfl, rfl, rfl, rfl, rfl⟩⟩
        · simp at hp
    · simp only [Except.ok.injEq] at hp
      subst hp
      exact ⟨y', mo', d', rfl, rfl, rfl, hb.1, hb.2.1, hb.2.2.1,
        hb.2.2.2, rfl, Or.inl ⟨rfl, rfl, rfl, rfl, rfl, rfl⟩⟩

end Opendate

/-- C9 (amended): for every input the strict resolver accepts - date-only,
partial or full times, fractions, and every timezone designator alike -
whose resolved year fits the grammar's 4-digit year field, re-serializing
the set components of the ParseResult with the same separator and
zero-padding and re-parsing yields the identical ParseResult; time-only
inputs round-trip through `parse_isotime` unconditionally. -/
theorem iso_components_roundtrip :
    (∀ (cs : List Char) (r : Opendate.ParseResult),
      Opendate.isoparseSepChars 'T' cs = .ok r →
      (∀ yv, r.year = some yv → yv < 10000) →
      Opendate.isoparseSepChars 'T' (Opendate.serializeResult 'T' r) =
        .ok r) ∧
    (∀ (cs : List Char) (r : Opendate.ParseResult),
      Opendate.parse_isotimeChars cs = .ok r →
      Opendate.parse_isotimeChars (Opendate.serializeResult 'T' r) =
        .ok r) := by
  constructor
  · intro cs r hp hy
    obtain ⟨y, mo, d, hy', hmo', hd', hmo1, hmo2, hd1, hd2, hw, hrest⟩ :=
      Opendate.isoparseSepChars_shape hp
    obtain ⟨ry, rmo, rd, rh, rmi, rs, ru, rw, rto, rtn⟩ := r
    simp only at hy' hmo' hd' hw hrest
    subst hy'
    subst hmo'
    subst hd'
    subst hw
    have hylt : y < 10000 := hy y rfl
    rcases hrest with ⟨hh, hmi, hs, hu, hto, htn⟩ | ⟨h, hh, hts, htz⟩
    · subst hh
      subst hmi
      subst hs
      subst hu
      subst hto
      subst htn
      have hrt := Opendate.isoparse_reparse_date y mo d hylt hmo1 hmo2 hd1 hd2
      simpa [Opendate.serializeResult, Opendate.serializeTimePart] using hrt
    · subst hh
      have hrt := Opendate.isoparse_reparse_datetime y mo d h rmi rs ru rto
        rtn hylt hmo1 hmo2 hd1 hd2 hts htz
      simpa [Opendate.serializeResult, Opendate.serializeTimePart,
        List.append_assoc] using hrt
  · intro cs r hp
    unfold Opendate.parse_isotimeChars at hp
    split at hp
    · simp at hp
    · rename_i r' rest heqt
      split at hp
      · simp only [Except.ok.injEq] at hp
        subst hp
        obtain ⟨h, hh, hts, htz, hyn, hmon, hdn, hwn⟩ :=
          Opendate.parseIsoTimeTz_shape heqt
        obtain ⟨ry, rmo, rd, rh, rmi, rs, ru, rw, rto, rtn⟩ := r'
        simp only at hh hts htz hyn hmon hdn hwn
        subst hh
        subst hyn
        subst hmon
        subst hdn
        subst hwn
        have hrt := Opendate.parse_isotimeChars_reparse h rmi rs ru rto rtn
          hts htz
        simpa [Opendate.serializeResult, Opendate.serializeTimePart] using hrt
      · simp at hp

/-- C9 counterexample: the round-trip law fails at the valid ISO week
date `9999-W52-7`, whose resolved civil date is 10000-01-02.  A
five-digit year fits neither the 4-digit zero-padded year field (the
serialization truncates to `0000-01-02`, which re-parses to year 0) nor
the grammar at all (the 5-digit form `10000-01-02` is rejected), so the
resulting ParseResult cannot be reproduced by re-parsing any
same-padding serialization. -/
theorem iso_roundtrip_year_overflow :
    Opendate.isoparse "9999-W52-7" =
      .ok { year := some 10000, month := some 1, day := some 2 } ∧
    Opendate.serializeResult 'T'
        { year := some 10000, month := some 1, day := some 2 } =
      "0000-01-02".data ∧
    Opendate.isoparseSepChars 'T' (Opendate.serializeResult 'T'
        { year := some 10000, month := some 1, day := some 2 }) ≠
      .ok { year := some 10000, month := some 1, day := some 2 } ∧
    Opendate.isoparse "10000-01-02" = .error .malformedIsoGrammar := by
  refine ⟨rfl, rfl, ?_, rfl⟩
  intro hcontra
  have h2 : Opendate.isoparseSepChars 'T' (Opendate.serializeResult 'T'
      { year := some 10000, month := some 1, day := some 2 }) =
      .ok { year := some 0, month := some 1, day := some 2 } := rfl
  rw [h2] at hcontra
  simp at hcontra

/-- C9 witness: the amended round trip applied to the accepted inputs
`2024-01-15T10:30:45.123456+05:30` (a full date-time with fraction and
numeric offset) and the time-only `14:30 `. -/
theorem iso_components_roundtrip_witness :
    Opendate.isoparseSepChars 'T' (Opendate.serializeResult 'T'
        { year := some 2024, month := some 1, day := some 15,
          hour := some 10, minute := some 30, second := some 45,
          microsecond := some 123456, tzoffset := some 19800 }) =
      .ok { year := some 2024, month := some 1, day := some 15,
            hour := some 10, minute := some 30, second := some 45,
            microsecond := some 123456, tzoffset := some 19800 } ∧
    Opendate.parse_isotimeChars (Opendate.serializeResult 'T'
        { hour := some 14, minute := some 30 }) =
      .ok { hour := some 14, minute := some 30 } :=
  ⟨iso_components_roundtrip.1 "2024-01-15T10:30:45.123456+05:30".data _
      rfl (fun yv hv => by simp at hv; omega),
   iso_components_roundtrip.2 "14:30 ".data _ rfl⟩
